import Mathlib

set_option linter.unusedVariables false

/-!
Verification development for the Tasks/Users REST API with pending-task
synchronization.  The definitions below are a shallow embedding of the
route handlers in `routes/tasks.js` and the two revisions of the users
route file, together with the Mongo-style list primitives they use
(`$pull`, `$addToSet`, `updateOne`, `updateMany`, `findByIdAndDelete`).
-/

namespace MP3

/-! ### List helpers

`asUniqueIdStrings` embeds the JS helper
`arr => [...new Set(arr.filter(Boolean).map(String))]` (filter out falsy
entries, then deduplicate keeping first occurrences).  `addToSet` models
Mongo `$addToSet` on an array field, `updateFirst` models `updateOne` /
`findByIdAndUpdate` (which touch a single matching document), and
`List.filter`-based removal models `$pull`.
-/

def uniqueFirstAux (seen : List String) : List String → List String
  | [] => []
  | x :: xs => if x ∈ seen then uniqueFirstAux seen xs else x :: uniqueFirstAux (x :: seen) xs

def uniqueFirst (l : List String) : List String := uniqueFirstAux [] l

def asUniqueIdStrings (l : List String) : List String :=
  uniqueFirst (l.filter (fun x => decide (x ≠ "")))

def addToSet (x : String) (l : List String) : List String :=
  if x ∈ l then l else l ++ [x]

/-- Mongo `$addToSet: { ... : { $each: xs } }`: add the new elements in order. -/
def addEach (xs : List String) (l : List String) : List String :=
  xs.foldl (fun acc x => addToSet x acc) l

/-- `updateOne`-style update: apply `f` to the first element matching `p`. -/
def updateFirst (p : α → Bool) (f : α → α) : List α → List α
  | [] => []
  | x :: xs => if p x then f x :: xs else x :: updateFirst p f xs

/-! ### Data model

Fields follow the mongoose schemas: a Task has `name`, `description`,
`deadline`, `completed`, `assignedUser` (empty string means unassigned),
`assignedUserName`, `dateCreated`; a User has `name`, `email`,
`pendingTasks` (a list of task-id strings) and `dateCreated`.  `_id` is
modelled as the `id` string field.  A `Store` is the pair of collections.
-/

structure Task where
  id : String
  name : String
  description : String
  deadline : String
  completed : Bool
  assignedUser : String
  assignedUserName : String
  dateCreated : String
deriving DecidableEq

structure User where
  id : String
  name : String
  email : String
  pendingTasks : List String
  dateCreated : String
deriving DecidableEq

structure Store where
  tasks : List Task
  users : List User
deriving DecidableEq

/-- Outcome of one route handler: the HTTP status and the store it leaves
behind (on a failed transactional path, the original store). -/
structure RouteResult where
  status : Nat
  store : Store
deriving DecidableEq

/-! ### Request bodies

`assignedUser` in a task body is `Option String`: `none` models an absent
field or a non-string value (the JS code checks
`assignedUser && typeof assignedUser === 'string'`), `some ""` an empty
string.  `assignedUserName` is carried but, as in the code, always
overwritten before a write. -/

structure TaskBody where
  name : String
  deadline : String
  description : String
  completed : Bool
  assignedUser : Option String
  assignedUserName : String
deriving DecidableEq

structure UserBody where
  name : String
  email : String
  pendingTasks : Option (List String)
deriving DecidableEq

/-- Partial body for `PUT /users/:id` (`findByIdAndUpdate` only touches the
fields that are present). -/
structure UserUpdateBody where
  name : Option String
  email : Option String
  pendingTasks : Option (List String)
deriving DecidableEq

/-! ### The pending-list synchronizer (routes/tasks.js, syncPendingTasks) -/

/--
Embedding of `syncPendingTasks({ task, addForUserId, removeFromUserIds })`:
normalize the removal list (dedup, drop falsy, stringify); if non-empty,
`$pull` the task id from every listed user (`updateMany`); then, if
`addForUserId` is truthy and the task is not completed, `$addToSet` the
task id on that user (`updateOne`).
-/
def syncPendingTasks (task : Task) (addForUserId : Option String)
    (removeFromUserIds : List String) (s : Store) : Store :=
  let tid := task.id
  let toRemove := asUniqueIdStrings removeFromUserIds
  let users1 :=
    if toRemove = [] then s.users
    else s.users.map (fun u =>
      if u.id ∈ toRemove then
        { u with pendingTasks := u.pendingTasks.filter (fun x => decide (x ≠ tid)) }
      else u)
  let users2 :=
    match addForUserId with
    | none => users1
    | some a =>
      if a ≠ "" ∧ task.completed = false then
        updateFirst (fun u => decide (u.id = a))
          (fun u => { u with pendingTasks := addToSet tid u.pendingTasks }) users1
      else users1
  { s with users := users2 }

/-! ### Task routes (routes/tasks.js) -/

/-- Result of the shared assigned-user resolution step in POST/PUT /tasks:
either the referenced user is missing (400), or the task is normalized to
unassigned, or the user was found and its current name captured. -/
inductive AssignResult where
  | invalid
  | unassigned
  | assigned (uid : String) (name : String)
deriving DecidableEq

/-- `if (assignedUser && typeof assignedUser === 'string') { ...findById... }
else { assignedUser = ''; assignedUserName = 'unassigned' }`. -/
def resolveAssigned (assignedUser : Option String) (s : Store) : AssignResult :=
  match assignedUser with
  | some a =>
    if a ≠ "" then
      match s.users.find? (fun u => decide (u.id = a)) with
      | none => .invalid
      | some u => .assigned a u.name
    else .unassigned
  | none => .unassigned

/-- POST /tasks: require name and deadline, resolve the assigned user,
insert the task, then keep the assignee's pendingTasks in sync. `newId`
is the server-generated id, `dateNow` the creation date. -/
def createTask (newId dateNow : String) (b : TaskBody) (s : Store) : RouteResult :=
  if b.name = "" ∨ b.deadline = "" then ⟨400, s⟩
  else
    match resolveAssigned b.assignedUser s with
    | .invalid => ⟨400, s⟩
    | .unassigned =>
      let task : Task := ⟨newId, b.name, b.description, b.deadline, b.completed, "", "unassigned", dateNow⟩
      ⟨201, { s with tasks := s.tasks ++ [task] }⟩
    | .assigned a nm =>
      let task : Task := ⟨newId, b.name, b.description, b.deadline, b.completed, a, nm, dateNow⟩
      let s1 : Store := { s with tasks := s.tasks ++ [task] }
      ⟨201, syncPendingTasks task (some a) [] s1⟩

/-- The replacement document built by PUT /tasks/:id (keeps the original
`_id` and `dateCreated`). -/
def mkReplacement (prev : Task) (b : TaskBody) (a nm : String) : Task :=
  ⟨prev.id, b.name, b.description, b.deadline, b.completed, a, nm, prev.dateCreated⟩

/-- Shared tail of PUT /tasks/:id once the previous task is loaded and the
assignment is resolved: replace the document, then call the synchronizer
with the previous owner (always, if any) and the new owner (again, only if
the replacement is completed) in the removal list, and the new owner as
add-target only if not completed. -/
def replaceCore (id : String) (prev : Task) (b : TaskBody) (a nm : String) (s : Store) :
    RouteResult :=
  let updated := mkReplacement prev b a nm
  let s1 : Store :=
    { s with tasks := updateFirst (fun t => decide (t.id = id)) (fun _ => updated) s.tasks }
  let prevUserId := prev.assignedUser
  let nextUserId := updated.assignedUser
  let removeFrom :=
    (if prevUserId ≠ "" then [prevUserId] else []) ++
    (if updated.completed = true ∧ nextUserId ≠ "" then [nextUserId] else [])
  let addFor : Option String :=
    if updated.completed = false ∧ nextUserId ≠ "" then some nextUserId else none
  ⟨200, syncPendingTasks updated addFor removeFrom s1⟩

/-- PUT /tasks/:id (full replace). -/
def replaceTask (id : String) (b : TaskBody) (s : Store) : RouteResult :=
  if b.name = "" ∨ b.deadline = "" then ⟨400, s⟩
  else
    match s.tasks.find? (fun t => decide (t.id = id)) with
    | none => ⟨404, s⟩
    | some prev =>
      match resolveAssigned b.assignedUser s with
      | .invalid => ⟨400, s⟩
      | .unassigned => replaceCore id prev b "" "unassigned" s
      | .assigned a nm => replaceCore id prev b a nm s

/-- DELETE /tasks/:id: `findByIdAndDelete`, then `$pull` the task id from
the assigned user's pendingTasks (one `updateOne`), if it had an assignee. -/
def deleteTask (id : String) (s : Store) : RouteResult :=
  match s.tasks.find? (fun t => decide (t.id = id)) with
  | none => ⟨404, s⟩
  | some d =>
    let s1 : Store := { s with tasks := s.tasks.eraseP (fun t => decide (t.id = id)) }
    if d.assignedUser ≠ "" then
      let users2 := updateFirst (fun u => decide (u.id = d.assignedUser))
        (fun u => { u with pendingTasks := u.pendingTasks.filter (fun x => decide (x ≠ d.id)) })
        s1.users
      ⟨204, { s1 with users := users2 }⟩
    else ⟨204, s1⟩

/-! ### User routes -/

/-- POST /users, transactional revision: validate name/email and email
uniqueness, normalize the batch of task ids, then inside one transaction
create the user, check the ids all exist and none is completed (aborting
with 400 and no change otherwise), reassign the tasks (forcing
`completed: false`), pull the ids from the prior owners' pendingTasks, and
`$addToSet` the batch onto the new user. -/
def createUserTx (newId dateNow : String) (b : UserBody) (s : Store) : RouteResult :=
  if b.name = "" ∨ b.email = "" then ⟨400, s⟩
  else if s.users.any (fun u => decide (u.email = b.email)) then ⟨400, s⟩
  else
    let tids := match b.pendingTasks with
      | some l => asUniqueIdStrings l
      | none => []
    let newUser : User := ⟨newId, b.name, b.email, [], dateNow⟩
    let s1 : Store := { s with users := s.users ++ [newUser] }
    if tids = [] then ⟨201, s1⟩
    else
      let found := s.tasks.filter (fun t => decide (t.id ∈ tids))
      if found.length ≠ tids.length then ⟨400, s⟩
      else if found.any (fun t => t.completed) then ⟨400, s⟩
      else
        let tasks2 := s.tasks.map (fun t =>
          if t.id ∈ tids then
            { t with assignedUser := newId, assignedUserName := b.name, completed := false }
          else t)
        let oldUserIds := asUniqueIdStrings (found.map (fun t => t.assignedUser))
        let users2 :=
          if oldUserIds = [] then s1.users
          else s1.users.map (fun u =>
            if u.id ∈ oldUserIds then
              { u with pendingTasks := u.pendingTasks.filter (fun x => decide (x ∉ tids)) }
            else u)
        let users3 := updateFirst (fun u => decide (u.id = newId))
          (fun u => { u with pendingTasks := addEach tids u.pendingTasks }) users2
        ⟨201, { tasks := tasks2, users := users3 }⟩

/-- POST /users, non-transactional revision (routes/users.js): validate
name/email and email uniqueness, save the user with the caller-supplied
body (pendingTasks stored verbatim, defaulting to the schema's empty
list), then — if a pendingTasks value was supplied — bulk-set
`assignedUser`/`assignedUserName` on the listed tasks. -/
def createUserPlain (newId dateNow : String) (b : UserBody) (s : Store) : RouteResult :=
  if b.name = "" ∨ b.email = "" then ⟨400, s⟩
  else if s.users.any (fun u => decide (u.email = b.email)) then ⟨400, s⟩
  else
    let newUser : User := ⟨newId, b.name, b.email, b.pendingTasks.getD [], dateNow⟩
    let s1 : Store := { s with users := s.users ++ [newUser] }
    match b.pendingTasks with
    | none => ⟨201, s1⟩
    | some l =>
      ⟨201, { s1 with tasks := s1.tasks.map (fun t =>
        if t.id ∈ l then { t with assignedUser := newId, assignedUserName := b.name } else t) }⟩

/-- PUT /users/:id, forward-propagation revision: `findByIdAndUpdate` with
the supplied fields, then bulk-point the listed tasks (normalized ids) at
this user.  No reconciliation of dropped ids, no completed check. -/
def updateUser (id : String) (b : UserUpdateBody) (s : Store) : RouteResult :=
  match s.users.find? (fun u => decide (u.id = id)) with
  | none => ⟨404, s⟩
  | some u0 =>
    let u1 : User := { u0 with
      name := b.name.getD u0.name
      email := b.email.getD u0.email
      pendingTasks := b.pendingTasks.getD u0.pendingTasks }
    let s1 : Store :=
      { s with users := updateFirst (fun u => decide (u.id = id)) (fun _ => u1) s.users }
    let tids := asUniqueIdStrings (b.pendingTasks.getD [])
    if tids = [] then ⟨200, s1⟩
    else
      ⟨200, { s1 with tasks := s1.tasks.map (fun t =>
        if t.id ∈ tids then { t with assignedUser := u1.id, assignedUserName := u1.name } else t) }⟩

/-- DELETE /users/:id: `findByIdAndDelete`, then bulk-reset every task
whose `assignedUser` is the deleted id to unassigned. -/
def deleteUser (id : String) (s : Store) : RouteResult :=
  match s.users.find? (fun u => decide (u.id = id)) with
  | none => ⟨404, s⟩
  | some _ =>
    ⟨204, { tasks := s.tasks.map (fun t =>
              if t.assignedUser = id then
                { t with assignedUser := "", assignedUserName := "unassigned" }
              else t),
            users := s.users.eraseP (fun u => decide (u.id = id)) }⟩

/-! ### List-endpoint status behaviour (for the malformed-JSON claim)

A query parameter is `absent`, `present but not valid JSON`, or `valid`.
Only the resulting HTTP status is modelled. -/

inductive RawParam where
  | absent
  | invalid
  | valid
deriving DecidableEq

/-- GET /tasks (routes/tasks.js): `safeJsonParse` maps malformed JSON to a
sentinel, and any sentinel among where/sort/select/count yields 400. -/
def tasksGetStatus (w so se c : RawParam) : Nat :=
  if w = .invalid ∨ so = .invalid ∨ se = .invalid ∨ c = .invalid then 400 else 200

/-- GET /users (routes/users.js): raw `JSON.parse` throws on malformed
JSON, the catch block answers 500. -/
def usersGetStatusJs (w so se c : RawParam) : Nat :=
  if w = .invalid ∨ so = .invalid ∨ se = .invalid ∨ c = .invalid then 500 else 200

/-- GET /users (transactional revision): where/sort/select go through
`parseJSON` with an `{}` fallback (malformed JSON silently ignored), but
`count` still uses raw `JSON.parse`, so only a malformed `count` throws. -/
def usersGetStatusRev (w so se c : RawParam) : Nat :=
  if c = .invalid then 500 else 200

/-! ### Operation sequences and invariants -/

/-- One mutating API operation.  Server-generated ids and creation dates
are carried as parameters of the operation. -/
inductive Op where
  | taskCreate (newId dateNow : String) (b : TaskBody)
  | taskReplace (id : String) (b : TaskBody)
  | taskDelete (id : String)
  | userCreateTx (newId dateNow : String) (b : UserBody)
  | userCreatePlain (newId dateNow : String) (b : UserBody)
  | userUpdate (id : String) (b : UserUpdateBody)
  | userDelete (id : String)

/-- The store an operation leaves behind (failed requests leave it as is). -/
def applyOp (op : Op) (s : Store) : Store :=
  match op with
  | .taskCreate newId dateNow b => (createTask newId dateNow b s).store
  | .taskReplace id b => (replaceTask id b s).store
  | .taskDelete id => (deleteTask id s).store
  | .userCreateTx newId dateNow b => (createUserTx newId dateNow b s).store
  | .userCreatePlain newId dateNow b => (createUserPlain newId dateNow b s).store
  | .userUpdate id b => (updateUser id b s).store
  | .userDelete id => (deleteUser id s).store

def applyOps : List Op → Store → Store
  | [], s => s
  | op :: ops, s => applyOps ops (applyOp op s)

/-- `SeqHolds P ops s`: the per-operation side condition `P` holds at each
step of the sequence, in the store current at that step. -/
def SeqHolds (P : Op → Store → Prop) : List Op → Store → Prop
  | [], _ => True
  | op :: ops, s => P op s ∧ SeqHolds P ops (applyOp op s)

/-- Freshness of server-generated ids: a created document's id is non-empty
and not already present in its collection. -/
def OpFresh (op : Op) (s : Store) : Prop :=
  match op with
  | .taskCreate newId _ _ => newId ≠ "" ∧ ∀ t ∈ s.tasks, t.id ≠ newId
  | .userCreateTx newId _ _ => newId ≠ "" ∧ ∀ u ∈ s.users, u.id ≠ newId
  | .userCreatePlain newId _ _ => newId ≠ "" ∧ ∀ u ∈ s.users, u.id ≠ newId
  | _ => True

instance (op : Op) (s : Store) : Decidable (OpFresh op s) :=
  match op with
  | .taskCreate newId _ _ =>
    inferInstanceAs (Decidable (newId ≠ "" ∧ ∀ t ∈ s.tasks, t.id ≠ newId))
  | .taskReplace _ _ => inferInstanceAs (Decidable True)
  | .taskDelete _ => inferInstanceAs (Decidable True)
  | .userCreateTx newId _ _ =>
    inferInstanceAs (Decidable (newId ≠ "" ∧ ∀ u ∈ s.users, u.id ≠ newId))
  | .userCreatePlain newId _ _ =>
    inferInstanceAs (Decidable (newId ≠ "" ∧ ∀ u ∈ s.users, u.id ≠ newId))
  | .userUpdate _ _ => inferInstanceAs (Decidable True)
  | .userDelete _ => inferInstanceAs (Decidable True)

/-- The operations covered by the pending-list invariant claim: task
create/replace/delete and the transactional user creation (the
forward-propagation user update, the non-transactional user creation and
user deletion are outside its scope). -/
def OpIsSync : Op → Prop
  | .taskCreate _ _ _ => True
  | .taskReplace _ _ => True
  | .taskDelete _ => True
  | .userCreateTx _ _ _ => True
  | _ => False

instance (op : Op) : Decidable (OpIsSync op) :=
  match op with
  | .taskCreate _ _ _ => inferInstanceAs (Decidable True)
  | .taskReplace _ _ => inferInstanceAs (Decidable True)
  | .taskDelete _ => inferInstanceAs (Decidable True)
  | .userCreateTx _ _ _ => inferInstanceAs (Decidable True)
  | .userCreatePlain _ _ _ => inferInstanceAs (Decidable False)
  | .userUpdate _ _ => inferInstanceAs (Decidable False)
  | .userDelete _ => inferInstanceAs (Decidable False)

/-- Side condition for the `assignedUser`/`assignedUserName` invariant:
created users get a fresh non-empty id and are not named `"unassigned"`,
and no user update renames a user to `"unassigned"`. -/
def OpNameOk (op : Op) (s : Store) : Prop :=
  match op with
  | .userCreateTx newId _ b => newId ≠ "" ∧ b.name ≠ "unassigned"
  | .userCreatePlain newId _ b => newId ≠ "" ∧ b.name ≠ "unassigned"
  | .userUpdate _ b => b.name ≠ some "unassigned"
  | _ => True

instance (op : Op) (s : Store) : Decidable (OpNameOk op s) :=
  match op with
  | .taskCreate _ _ _ => inferInstanceAs (Decidable True)
  | .taskReplace _ _ => inferInstanceAs (Decidable True)
  | .taskDelete _ => inferInstanceAs (Decidable True)
  | .userCreateTx newId _ b =>
    inferInstanceAs (Decidable (newId ≠ "" ∧ b.name ≠ "unassigned"))
  | .userCreatePlain newId _ b =>
    inferInstanceAs (Decidable (newId ≠ "" ∧ b.name ≠ "unassigned"))
  | .userUpdate _ b => inferInstanceAs (Decidable (b.name ≠ some "unassigned"))
  | .userDelete _ => inferInstanceAs (Decidable True)

instance instDecSeqHolds (P : Op → Store → Prop) [∀ o s, Decidable (P o s)] :
    ∀ (ops : List Op) (s : Store), Decidable (SeqHolds P ops s)
  | [], _ => isTrue trivial
  | op :: ops, s =>
    have : Decidable (SeqHolds P ops (applyOp op s)) := instDecSeqHolds P ops (applyOp op s)
    inferInstanceAs (Decidable (P op s ∧ SeqHolds P ops (applyOp op s)))

/-- The pending-list invariant: a task id sits in a user's pendingTasks
exactly when the task is assigned to that user and not completed. -/
def Inv (s : Store) : Prop :=
  ∀ u ∈ s.users, ∀ t ∈ s.tasks,
    (t.id ∈ u.pendingTasks ↔ (t.assignedUser = u.id ∧ t.completed = false))

/-- Store well-formedness: unique non-empty ids in both collections, every
non-empty `assignedUser` refers to an existing user, and every pendingTasks
entry is the id of an existing task. -/
def WF (s : Store) : Prop :=
  (s.users.map User.id).Nodup ∧ (s.tasks.map Task.id).Nodup ∧
  (∀ u ∈ s.users, u.id ≠ "") ∧ (∀ t ∈ s.tasks, t.id ≠ "") ∧
  (∀ t ∈ s.tasks, t.assignedUser ≠ "" → ∃ u ∈ s.users, u.id = t.assignedUser) ∧
  (∀ u ∈ s.users, ∀ x ∈ u.pendingTasks, ∃ t ∈ s.tasks, t.id = x)

/-- The assignment-name invariant claimed in the spec. -/
def TaskNameInv (s : Store) : Prop :=
  ∀ t ∈ s.tasks, (t.assignedUser = "" ↔ t.assignedUserName = "unassigned")

/-- Users are never literally named `"unassigned"` and have non-empty ids
(the side condition under which `TaskNameInv` is preserved). -/
def UsersNameOk (s : Store) : Prop :=
  ∀ u ∈ s.users, u.id ≠ "" ∧ u.name ≠ "unassigned"

instance (s : Store) : Decidable (Inv s) :=
  inferInstanceAs (Decidable (∀ u ∈ s.users, ∀ t ∈ s.tasks,
    (t.id ∈ u.pendingTasks ↔ (t.assignedUser = u.id ∧ t.completed = false))))

instance (s : Store) : Decidable (WF s) :=
  inferInstanceAs (Decidable (
    (s.users.map User.id).Nodup ∧ (s.tasks.map Task.id).Nodup ∧
    (∀ u ∈ s.users, u.id ≠ "") ∧ (∀ t ∈ s.tasks, t.id ≠ "") ∧
    (∀ t ∈ s.tasks, t.assignedUser ≠ "" → ∃ u ∈ s.users, u.id = t.assignedUser) ∧
    (∀ u ∈ s.users, ∀ x ∈ u.pendingTasks, ∃ t ∈ s.tasks, t.id = x)))

instance (s : Store) : Decidable (TaskNameInv s) :=
  inferInstanceAs (Decidable (∀ t ∈ s.tasks,
    (t.assignedUser = "" ↔ t.assignedUserName = "unassigned")))

instance (s : Store) : Decidable (UsersNameOk s) :=
  inferInstanceAs (Decidable (∀ u ∈ s.users, u.id ≠ "" ∧ u.name ≠ "unassigned"))

/-! ### Spec-side description of the PUT /tasks synchronizer arguments

These two definitions follow the wording of the spec's call-site table for
the Replace (PUT) row, to be compared with what `replaceCore` passes:
add-target = the new assigned user, only if the replacement is not
completed; removal list = the previous assigned user (always, if it
existed), plus the new assigned user again if the replacement is
completed. -/

def specPutAdd (updated : Task) : Option String :=
  if updated.completed = true then none
  else if updated.assignedUser ≠ "" then some updated.assignedUser else none

def specPutRemove (prevAssignedUser : String) (updated : Task) : List String :=
  (if prevAssignedUser ≠ "" then [prevAssignedUser] else []) ++
  (if updated.completed = true ∧ updated.assignedUser ≠ "" then [updated.assignedUser] else [])

/-- Pointwise effect of `syncPendingTasks` on one user (used to state and
prove the normal form of the synchronizer when user ids are unique). -/
def syncUserFun (task : Task) (addForUserId : Option String)
    (removeFromUserIds : List String) (u : User) : User :=
  let u1 :=
    if u.id ∈ removeFromUserIds ∧ u.id ≠ "" then
      { u with pendingTasks := u.pendingTasks.filter (fun x => decide (x ≠ task.id)) }
    else u
  match addForUserId with
  | some a =>
    if a ≠ "" ∧ task.completed = false ∧ u.id = a then
      { u1 with pendingTasks := addToSet task.id u1.pendingTasks }
    else u1
  | none => u1

/-- Per-user effect claimed for one `syncPendingTasks` call: identity
fields untouched; the task's id present afterwards exactly when the add
applied (truthy `addForUserId`, not completed) or it was present before
and the user was not on the (normalized) removal list; other ids
untouched; no duplicates introduced. -/
def c3Rel (task : Task) (a? : Option String) (rem : List String) (u u' : User) : Prop :=
  u'.id = u.id ∧ u'.name = u.name ∧ u'.email = u.email ∧ u'.dateCreated = u.dateCreated ∧
  (task.id ∈ u'.pendingTasks ↔
    ((∃ a, a? = some a ∧ a ≠ "" ∧ u.id = a ∧ task.completed = false) ∨
     (task.id ∈ u.pendingTasks ∧ ¬(u.id ∈ rem ∧ u.id ≠ "")))) ∧
  (∀ x, x ≠ task.id → (x ∈ u'.pendingTasks ↔ x ∈ u.pendingTasks)) ∧
  (u.pendingTasks.Nodup → u'.pendingTasks.Nodup)

/-- Per-task effect of the DELETE /users/:id cascade: tasks owned by the
deleted user are reset to unassigned with every other field untouched;
all other tasks are untouched. -/
def c8Rel (id : String) (t t' : Task) : Prop :=
  (t.assignedUser = id →
    t'.id = t.id ∧ t'.name = t.name ∧ t'.description = t.description ∧
    t'.deadline = t.deadline ∧ t'.completed = t.completed ∧
    t'.assignedUser = "" ∧ t'.assignedUserName = "unassigned" ∧
    t'.dateCreated = t.dateCreated) ∧
  (t.assignedUser ≠ id → t' = t)

/-- The `$addToSet` update applied to one user (proof-side abbreviation of
the update document passed by the synchronizer's `updateOne`). -/
def addPendingFun (tid : String) (u : User) : User :=
  { u with pendingTasks := addToSet tid u.pendingTasks }

/-! ### Concrete documents used in the witnesses -/

def wTask : Task := ⟨"t1", "Write report", "", "2031-01-01", false, "u1", "Alice", "d0"⟩

def wUserA : User := ⟨"u1", "Alice", "alice@x", ["t1"], "d0"⟩

def wUserB : User := ⟨"u2", "Bob", "bob@x", ["t1", "t9"], "d0"⟩

def wStore : Store := ⟨[wTask], [wUserA, wUserB]⟩

/-- A well-formed store satisfying the pending-list invariant. -/
def wStore2 : Store := ⟨[wTask], [wUserA, ⟨"u2", "Bob", "bob@x", [], "d0"⟩]⟩

def wB4 : TaskBody := ⟨"T1 replaced", "2031-03-03", "", false, some "u2", "caller name"⟩

/-- A sequence exercising every synchronization path: create a user,
create an assigned task, steal it through the batch-assignment
transaction, complete it through a full replace, then delete it. -/
def c2ops : List Op :=
  [Op.userCreateTx "u1" "d0" ⟨"Alice", "a@x", none⟩,
   Op.taskCreate "t1" "d1" ⟨"T1", "2031-01-01", "", false, some "u1", "ignored"⟩,
   Op.userCreateTx "u2" "d2" ⟨"Bob", "b@x", some ["t1"]⟩,
   Op.taskReplace "t1" ⟨"T1", "2031-01-01", "", true, some "u2", "ignored"⟩,
   Op.taskDelete "t1"]

/-- A sequence exercising every route for the assignment-name invariant. -/
def c6ops : List Op :=
  [Op.userCreatePlain "u3" "d3" ⟨"Carol", "c@x", some ["t1"]⟩,
   Op.userUpdate "u3" ⟨some "Carla", none, some ["t1"]⟩,
   Op.userDelete "u3",
   Op.taskDelete "t1"]

/-! ### Helper lemmas -/

theorem mem_uniqueFirstAux (seen l : List String) (x : String) :
    x ∈ uniqueFirstAux seen l ↔ x ∈ l ∧ x ∉ seen := by
  induction l generalizing seen with
  | nil => simp [uniqueFirstAux]
  | cons y ys ih =>
    by_cases hy : y ∈ seen
    · simp only [uniqueFirstAux, if_pos hy, ih, List.mem_cons]
      constructor
      · rintro ⟨h1, h2⟩; exact ⟨Or.inr h1, h2⟩
      · rintro ⟨h1 | h1, h2⟩
        · exact absurd (h1 ▸ hy) h2
        · exact ⟨h1, h2⟩
    · simp only [uniqueFirstAux, if_neg hy, List.mem_cons, ih]
      constructor
      · rintro (rfl | ⟨h1, h2⟩)
        · exact ⟨Or.inl rfl, hy⟩
        · exact ⟨Or.inr h1, fun hx => h2 (Or.inr hx)⟩
      · rintro ⟨rfl | h1, h2⟩
        · exact Or.inl rfl
        · by_cases hxy : x = y
          · exact Or.inl hxy
          · exact Or.inr ⟨h1, by simp [List.mem_cons, hxy, h2]⟩

theorem nodup_uniqueFirstAux (seen l : List String) : (uniqueFirstAux seen l).Nodup := by
  induction l generalizing seen with
  | nil => simp [uniqueFirstAux]
  | cons y ys ih =>
    by_cases hy : y ∈ seen
    · simpa [uniqueFirstAux, if_pos hy] using ih seen
    · simp only [uniqueFirstAux, if_neg hy, List.nodup_cons]
      refine ⟨fun hmem => ?_, ih (y :: seen)⟩
      rcases (mem_uniqueFirstAux _ _ _).1 hmem with ⟨_, h2⟩
      exact h2 (List.mem_cons_self _ _)

theorem mem_uniqueFirst (l : List String) (x : String) : x ∈ uniqueFirst l ↔ x ∈ l := by
  simp [uniqueFirst, mem_uniqueFirstAux]

theorem nodup_uniqueFirst (l : List String) : (uniqueFirst l).Nodup :=
  nodup_uniqueFirstAux [] l

theorem mem_asUniqueIdStrings (l : List String) (x : String) :
    x ∈ asUniqueIdStrings l ↔ x ∈ l ∧ x ≠ "" := by
  simp [asUniqueIdStrings, mem_uniqueFirst, List.mem_filter]

theorem nodup_asUniqueIdStrings (l : List String) : (asUniqueIdStrings l).Nodup :=
  nodup_uniqueFirst _

theorem mem_addToSet (x y : String) (l : List String) :
    y ∈ addToSet x l ↔ y = x ∨ y ∈ l := by
  unfold addToSet
  split
  · constructor
    · exact fun h => Or.inr h
    · rintro (rfl | h)
      · assumption
      · exact h
  · simp [List.mem_append, or_comm]

theorem addToSet_idem (x : String) (l : List String) :
    addToSet x (addToSet x l) = addToSet x l := by
  unfold addToSet
  by_cases h : x ∈ l
  · simp [h]
  · simp [h, List.mem_append]

theorem nodup_addToSet (x : String) (l : List String) (h : l.Nodup) :
    (addToSet x l).Nodup := by
  unfold addToSet
  split
  · exact h
  · next hx => simp [List.nodup_append, h, hx]

theorem mem_addEach (xs l : List String) (y : String) :
    y ∈ addEach xs l ↔ y ∈ xs ∨ y ∈ l := by
  induction xs generalizing l with
  | nil => simp [addEach]
  | cons a as ih =>
    simp only [addEach, List.foldl_cons] at *
    rw [ih (addToSet a l), mem_addToSet]
    simp [List.mem_cons]
    tauto

theorem nodup_addEach (xs l : List String) (h : l.Nodup) : (addEach xs l).Nodup := by
  induction xs generalizing l with
  | nil => simpa [addEach]
  | cons a as ih =>
    simp only [addEach, List.foldl_cons] at *
    exact ih (addToSet a l) (nodup_addToSet a l h)

theorem mapEqSelfOf (l : List α) (g : α → α) (h : ∀ x ∈ l, g x = x) : l.map g = l := by
  induction l with
  | nil => rfl
  | cons x xs ih =>
    simp only [List.map_cons, h x (List.mem_cons_self _ _),
      ih (fun y hy => h y (List.mem_cons_of_mem _ hy))]

theorem mapCongrOn (l : List α) (f g : α → β) (h : ∀ x ∈ l, f x = g x) :
    l.map f = l.map g := by
  induction l with
  | nil => rfl
  | cons x xs ih =>
    simp only [List.map_cons, h x (List.mem_cons_self _ _),
      ih (fun y hy => h y (List.mem_cons_of_mem _ hy))]

theorem updateFirst_eq_map (key : α → String) (a : String) (f : α → α) (l : List α)
    (h : (l.map key).Nodup) :
    updateFirst (fun x => decide (key x = a)) f l =
      l.map (fun x => if key x = a then f x else x) := by
  induction l with
  | nil => rfl
  | cons x xs ih =>
    simp only [List.map_cons, List.nodup_cons, List.mem_map] at h
    by_cases hx : key x = a
    · have htail : xs.map (fun y => if key y = a then f y else y) = xs := by
        apply mapEqSelfOf
        intro y hy
        have : key y ≠ a := fun hk => h.1 ⟨y, hy, by rw [hk, hx]⟩
        simp [this]
      simp [updateFirst, hx, htail]
    · simp [updateFirst, hx, ih h.2]

theorem updateFirst_map_key (key : α → β) (p : α → Bool) (f : α → α) (l : List α)
    (h : ∀ x, key (f x) = key x) :
    (updateFirst p f l).map key = l.map key := by
  induction l with
  | nil => rfl
  | cons x xs ih =>
    by_cases hx : p x
    · simp [updateFirst, hx, h]
    · simp [updateFirst, hx, ih]

theorem length_updateFirst (p : α → Bool) (f : α → α) (l : List α) :
    (updateFirst p f l).length = l.length := by
  induction l with
  | nil => rfl
  | cons x xs ih =>
    by_cases hx : p x
    · simp [updateFirst, hx]
    · simp [updateFirst, hx, ih]

theorem mem_updateFirst (p : α → Bool) (f : α → α) (l : List α) (x : α)
    (h : x ∈ updateFirst p f l) : x ∈ l ∨ ∃ y ∈ l, p y ∧ x = f y := by
  induction l with
  | nil => simp [updateFirst] at h
  | cons z zs ih =>
    by_cases hz : p z
    · simp only [updateFirst, if_pos hz, List.mem_cons] at h
      rcases h with rfl | h
      · exact Or.inr ⟨z, List.mem_cons_self _ _, hz, rfl⟩
      · exact Or.inl (List.mem_cons_of_mem _ h)
    · simp only [updateFirst, if_neg hz, List.mem_cons] at h
      rcases h with rfl | h
      · exact Or.inl (List.mem_cons_self _ _)
      · rcases ih h with h1 | ⟨y, hy, hpy, hxy⟩
        · exact Or.inl (List.mem_cons_of_mem _ h1)
        · exact Or.inr ⟨y, List.mem_cons_of_mem _ hy, hpy, hxy⟩

theorem updateFirst_idem_of (p : α → Bool) (f : α → α) (l : List α)
    (hf : ∀ x, f (f x) = f x) (hp : ∀ x, p (f x) = p x) :
    updateFirst p f (updateFirst p f l) = updateFirst p f l := by
  induction l with
  | nil => rfl
  | cons x xs ih =>
    by_cases hx : p x
    · simp [updateFirst, hx, hp, hf]
    · simp [updateFirst, hx, ih]

theorem erasePEqFilterOfNodup (key : α → String) (a : String) (l : List α)
    (h : (l.map key).Nodup) :
    l.eraseP (fun x => decide (key x = a)) = l.filter (fun x => decide (key x ≠ a)) := by
  induction l with
  | nil => rfl
  | cons x xs ih =>
    simp only [List.map_cons, List.nodup_cons, List.mem_map] at h
    by_cases hx : key x = a
    · have htail : xs.filter (fun y => !decide (key y = a)) = xs := by
        apply List.filter_eq_self.2
        intro y hy
        have : key y ≠ a := fun hk => h.1 ⟨y, hy, by rw [hk, hx]⟩
        simpa using this
      simp [List.eraseP_cons, hx, List.filter_cons, htail]
    · simp [List.eraseP_cons, hx, List.filter_cons, ih h.2]

theorem forallMemOfFilterLengthEq (key : α → String) (l : List α) (ids : List String)
    (hl : (l.map key).Nodup)
    (h : (l.filter (fun x => decide (key x ∈ ids))).length = ids.length) :
    ∀ x ∈ ids, ∃ t ∈ l, key t = x := by
  set m := (l.filter (fun x => decide (key x ∈ ids))).map key with hm
  have hmsub : m ⊆ ids := by
    intro x hx
    rcases List.mem_map.1 hx with ⟨t, ht, rfl⟩
    have := (List.mem_filter.1 ht).2
    simpa using this
  have hmnd : m.Nodup := by
    have hsub : (l.filter (fun x => decide (key x ∈ ids))).Sublist l :=
      List.filter_sublist _
    exact List.Nodup.sublist (hsub.map key) hl
  have hlen : m.length = ids.length := by
    rw [hm, List.length_map]; exact h
  have hperm : m.Perm ids :=
    (List.subperm_of_subset hmnd hmsub).perm_of_length_le (le_of_eq hlen.symm)
  intro x hx
  have hxm : x ∈ m := hperm.mem_iff.2 hx
  rcases List.mem_map.1 hxm with ⟨t, ht, rfl⟩
  exact ⟨t, (List.mem_filter.1 ht).1, rfl⟩

/-! ### Normal form of the synchronizer -/

theorem sync_tasks_eq (task : Task) (a? : Option String) (rem : List String) (s : Store) :
    (syncPendingTasks task a? rem s).tasks = s.tasks := by
  unfold syncPendingTasks
  rfl

theorem syncUserFun_id (task : Task) (a? : Option String) (rem : List String) (u : User) :
    (syncUserFun task a? rem u).id = u.id := by
  unfold syncUserFun
  cases a? <;> (repeat' split) <;> rfl

theorem syncUserFun_name (task : Task) (a? : Option String) (rem : List String) (u : User) :
    (syncUserFun task a? rem u).name = u.name := by
  unfold syncUserFun
  cases a? <;> (repeat' split) <;> rfl

theorem syncUserFun_email (task : Task) (a? : Option String) (rem : List String) (u : User) :
    (syncUserFun task a? rem u).email = u.email := by
  unfold syncUserFun
  cases a? <;> (repeat' split) <;> rfl

theorem syncUserFun_dateCreated (task : Task) (a? : Option String) (rem : List String) (u : User) :
    (syncUserFun task a? rem u).dateCreated = u.dateCreated := by
  unfold syncUserFun
  cases a? <;> (repeat' split) <;> rfl

theorem syncUserFun_none (task : Task) (rem : List String) (u : User) :
    syncUserFun task none rem u =
      (if u.id ∈ rem ∧ u.id ≠ "" then
        { u with pendingTasks := u.pendingTasks.filter (fun x => decide (x ≠ task.id)) }
      else u) := rfl

theorem syncUserFun_some (task : Task) (a : String) (rem : List String) (u : User) :
    syncUserFun task (some a) rem u =
      (let u1 := if u.id ∈ rem ∧ u.id ≠ "" then
          { u with pendingTasks := u.pendingTasks.filter (fun x => decide (x ≠ task.id)) }
        else u
      if a ≠ "" ∧ task.completed = false ∧ u.id = a then
        { u1 with pendingTasks := addToSet task.id u1.pendingTasks }
      else u1) := rfl

theorem sync_users_normal (task : Task) (a? : Option String) (rem : List String) (s : Store)
    (h : (s.users.map User.id).Nodup) :
    (syncPendingTasks task a? rem s).users = s.users.map (syncUserFun task a? rem) := by
  unfold syncPendingTasks
  set pullFun : User → User := fun u =>
    if u.id ∈ rem ∧ u.id ≠ "" then
      { u with pendingTasks := u.pendingTasks.filter (fun x => decide (x ≠ task.id)) }
    else u with hpull
  have husers1 :
      (if asUniqueIdStrings rem = [] then s.users
       else s.users.map (fun u =>
        if u.id ∈ asUniqueIdStrings rem then
          { u with pendingTasks := u.pendingTasks.filter (fun x => decide (x ≠ task.id)) }
        else u)) = s.users.map pullFun := by
    by_cases hrem : asUniqueIdStrings rem = []
    · rw [if_pos hrem]
      symm
      apply mapEqSelfOf
      intro u hu
      have : ¬(u.id ∈ rem ∧ u.id ≠ "") := by
        intro hc
        have : u.id ∈ asUniqueIdStrings rem := (mem_asUniqueIdStrings rem u.id).2 hc
        rw [hrem] at this
        exact absurd this (List.not_mem_nil _)
      simp [hpull, this]
    · rw [if_neg hrem]
      apply mapCongrOn
      intro u hu
      simp only [hpull]
      by_cases hc : u.id ∈ rem ∧ u.id ≠ ""
      · rw [if_pos ((mem_asUniqueIdStrings rem u.id).2 hc), if_pos hc]
      · rw [if_neg (fun hmem => hc ((mem_asUniqueIdStrings rem u.id).1 hmem)), if_neg hc]
  have hpullid : ∀ u : User, (pullFun u).id = u.id := by
    intro u
    simp only [hpull]
    split <;> rfl
  cases a? with
  | none =>
    simp only [husers1]
    apply mapCongrOn
    intro u hu
    rw [syncUserFun_none]
  | some a =>
    simp only [husers1]
    by_cases hcond : a ≠ "" ∧ task.completed = false
    · rw [if_pos hcond]
      have hnd1 : ((s.users.map pullFun).map User.id).Nodup := by
        rw [List.map_map]
        have : s.users.map (User.id ∘ pullFun) = s.users.map User.id :=
          mapCongrOn _ _ _ (fun u hu => hpullid u)
        rw [this]
        exact h
      rw [updateFirst_eq_map User.id a _ _ hnd1, List.map_map]
      apply mapCongrOn
      intro u hu
      simp only [Function.comp]
      have hEid := hpullid u
      by_cases hua : u.id = a
      · rw [if_pos (hEid.trans hua), syncUserFun_some]
        simp only []
        rw [if_pos ⟨hcond.1, hcond.2, hua⟩]
      · rw [if_neg (fun hcc => hua (hEid.symm.trans hcc)), syncUserFun_some]
        simp only []
        rw [if_neg (fun hcc => hua hcc.2.2)]
    · rw [if_neg hcond]
      apply mapCongrOn
      intro u hu
      have hno : ¬(a ≠ "" ∧ task.completed = false ∧ u.id = a) := by
        intro hc
        exact hcond ⟨hc.1, hc.2.1⟩
      rw [syncUserFun_some]
      simp only []
      rw [if_neg hno]

theorem mem_pend_syncUserFun (task : Task) (a? : Option String) (rem : List String) (u : User) :
    task.id ∈ (syncUserFun task a? rem u).pendingTasks ↔
      ((∃ a, a? = some a ∧ a ≠ "" ∧ u.id = a ∧ task.completed = false) ∨
       (task.id ∈ u.pendingTasks ∧ ¬(u.id ∈ rem ∧ u.id ≠ ""))) := by
  cases a? with
  | none =>
    rw [syncUserFun_none]
    by_cases hc : u.id ∈ rem ∧ u.id ≠ ""
    · rw [if_pos hc]
      simp [List.mem_filter, hc]
    · rw [if_neg hc]
      simp [hc]
  | some a =>
    rw [syncUserFun_some]
    simp only []
    by_cases hadd : a ≠ "" ∧ task.completed = false ∧ u.id = a
    · rw [if_pos hadd]
      constructor
      · intro _
        exact Or.inl ⟨a, rfl, hadd.1, hadd.2.2, hadd.2.1⟩
      · intro _
        exact (mem_addToSet _ _ _).2 (Or.inl rfl)
    · rw [if_neg hadd]
      by_cases hc : u.id ∈ rem ∧ u.id ≠ ""
      · rw [if_pos hc]
        constructor
        · intro hmem
          have h2 := (List.mem_filter.1 hmem).2
          simp at h2
        · rintro (⟨a2, ha2, h1, h2, h3⟩ | ⟨h1, h2⟩)
          · cases Option.some.inj ha2
            exact absurd ⟨h1, h3, h2⟩ hadd
          · exact absurd hc h2
      · rw [if_neg hc]
        constructor
        · intro h1
          exact Or.inr ⟨h1, hc⟩
        · rintro (⟨a2, ha2, h1, h2, h3⟩ | ⟨h1, h2⟩)
          · cases Option.some.inj ha2
            exact absurd ⟨h1, h3, h2⟩ hadd
          · exact h1

theorem mem_pend_syncUserFun_ne (task : Task) (a? : Option String) (rem : List String)
    (u : User) (x : String) (hx : x ≠ task.id) :
    x ∈ (syncUserFun task a? rem u).pendingTasks ↔ x ∈ u.pendingTasks := by
  cases a? with
  | none =>
    rw [syncUserFun_none]
    by_cases hc : u.id ∈ rem ∧ u.id ≠ ""
    · rw [if_pos hc]
      simp [List.mem_filter, hx]
    · rw [if_neg hc]
  | some a =>
    rw [syncUserFun_some]
    simp only []
    by_cases hadd : a ≠ "" ∧ task.completed = false ∧ u.id = a
    · rw [if_pos hadd]
      by_cases hc : u.id ∈ rem ∧ u.id ≠ ""
      · rw [if_pos hc]
        simp [mem_addToSet, List.mem_filter, hx]
      · rw [if_neg hc]
        simp [mem_addToSet, hx]
    · rw [if_neg hadd]
      by_cases hc : u.id ∈ rem ∧ u.id ≠ ""
      · rw [if_pos hc]
        simp [List.mem_filter, hx]
      · rw [if_neg hc]

theorem nodup_pend_syncUserFun (task : Task) (a? : Option String) (rem : List String)
    (u : User) (h : u.pendingTasks.Nodup) :
    (syncUserFun task a? rem u).pendingTasks.Nodup := by
  cases a? with
  | none =>
    rw [syncUserFun_none]
    by_cases hc : u.id ∈ rem ∧ u.id ≠ ""
    · rw [if_pos hc]
      exact h.filter _
    · rw [if_neg hc]
      exact h
  | some a =>
    rw [syncUserFun_some]
    simp only []
    by_cases hadd : a ≠ "" ∧ task.completed = false ∧ u.id = a
    · rw [if_pos hadd]
      by_cases hc : u.id ∈ rem ∧ u.id ≠ ""
      · rw [if_pos hc]
        exact nodup_addToSet _ _ (h.filter _)
      · rw [if_neg hc]
        exact nodup_addToSet _ _ h
    · rw [if_neg hadd]
      by_cases hc : u.id ∈ rem ∧ u.id ≠ ""
      · rw [if_pos hc]
        exact h.filter _
      · rw [if_neg hc]
        exact h

/-! ### Generic facts used by the invariant-preservation proofs -/

theorem nodup_key_eq (key : α → String) (l : List α) (h : (l.map key).Nodup)
    (x y : α) (hx : x ∈ l) (hy : y ∈ l) (hk : key x = key y) : x = y := by
  induction l with
  | nil => cases hx
  | cons z zs ih =>
    simp only [List.map_cons, List.nodup_cons, List.mem_map] at h
    rcases List.mem_cons.1 hx with rfl | hx2
    · rcases List.mem_cons.1 hy with rfl | hy2
      · rfl
      · exact absurd ⟨y, hy2, hk.symm⟩ h.1
    · rcases List.mem_cons.1 hy with rfl | hy2
      · exact absurd ⟨x, hx2, hk⟩ h.1
      · exact ih h.2 hx2 hy2

theorem mem_pend_syncUserFun_sub (task : Task) (a? : Option String) (rem : List String)
    (u : User) (x : String) (hx : x ∈ (syncUserFun task a? rem u).pendingTasks) :
    x = task.id ∨ x ∈ u.pendingTasks := by
  by_cases hxe : x = task.id
  · exact Or.inl hxe
  · exact Or.inr ((mem_pend_syncUserFun_ne task a? rem u x hxe).1 hx)

theorem find?_id_some (key : α → String) (l : List α) (a : String) (x : α)
    (h : l.find? (fun y => decide (key y = a)) = some x) : x ∈ l ∧ key x = a := by
  refine ⟨List.mem_of_find?_eq_some h, ?_⟩
  have := List.find?_some h
  simpa using this

theorem resolveAssigned_assigned (o : Option String) (s : Store) (a nm : String)
    (h : resolveAssigned o s = AssignResult.assigned a nm) :
    o = some a ∧ a ≠ "" ∧ ∃ u0 ∈ s.users, u0.id = a ∧ u0.name = nm := by
  cases o with
  | none => exact absurd h (by simp [resolveAssigned])
  | some x =>
    by_cases hx : x ≠ ""
    · rcases hfind : s.users.find? (fun u => decide (u.id = x)) with _ | u0
      · rw [resolveAssigned, if_pos hx, hfind] at h
        exact absurd h (by simp)
      · rw [resolveAssigned, if_pos hx, hfind] at h
        injection h with h1 h2
        subst h1
        subst h2
        rcases find?_id_some User.id s.users x u0 hfind with ⟨hmem, hid⟩
        exact ⟨rfl, hx, u0, hmem, hid, rfl⟩
    · rw [resolveAssigned, if_neg hx] at h
      exact absurd h (by simp)

theorem notmem_pend_of_fresh (s : Store) (tid : String)
    (hpc : ∀ u ∈ s.users, ∀ x ∈ u.pendingTasks, ∃ t ∈ s.tasks, t.id = x)
    (hfresh : ∀ t ∈ s.tasks, t.id ≠ tid) :
    ∀ u ∈ s.users, tid ∉ u.pendingTasks := by
  intro u hu hmem
  rcases hpc u hu tid hmem with ⟨t, ht, hteq⟩
  exact hfresh t ht hteq

/-! ### Preservation of the pending-list invariant, operation by operation -/

theorem nodup_ids_append_task (s : Store) (task : Task)
    (hndt : (s.tasks.map Task.id).Nodup) (hfresh : ∀ t ∈ s.tasks, t.id ≠ task.id) :
    ((s.tasks ++ [task]).map Task.id).Nodup := by
  rw [List.map_append]
  rw [List.nodup_append]
  refine ⟨hndt, by simp, ?_⟩
  intro x hx hx2
  rcases List.mem_map.1 hx with ⟨t, ht, rfl⟩
  have : t.id = task.id := by simpa using hx2
  exact hfresh t ht this

theorem good_createTask (newId dateNow : String) (b : TaskBody) (s : Store)
    (hwf : WF s) (hinv : Inv s) (hne : newId ≠ "") (hfresh : ∀ t ∈ s.tasks, t.id ≠ newId) :
    WF ((createTask newId dateNow b s).store) ∧ Inv ((createTask newId dateNow b s).store) := by
  obtain ⟨hndu, hndt, hidu, hidt, hac, hpc⟩ := hwf
  unfold createTask
  by_cases h1 : b.name = "" ∨ b.deadline = ""
  · rw [if_pos h1]
    exact ⟨⟨hndu, hndt, hidu, hidt, hac, hpc⟩, hinv⟩
  rw [if_neg h1]
  cases hres : resolveAssigned b.assignedUser s with
  | invalid => exact ⟨⟨hndu, hndt, hidu, hidt, hac, hpc⟩, hinv⟩
  | unassigned =>
    show WF (Store.mk (s.tasks ++ [⟨newId, b.name, b.description, b.deadline, b.completed, "", "unassigned", dateNow⟩]) s.users) ∧
      Inv (Store.mk (s.tasks ++ [⟨newId, b.name, b.description, b.deadline, b.completed, "", "unassigned", dateNow⟩]) s.users)
    set task : Task := ⟨newId, b.name, b.description, b.deadline, b.completed, "", "unassigned", dateNow⟩ with htask
    constructor
    · refine ⟨hndu, nodup_ids_append_task s task hndt hfresh, hidu, ?_, ?_, ?_⟩
      · intro t ht
        rcases List.mem_append.1 ht with ht2 | ht2
        · exact hidt t ht2
        · rw [List.mem_singleton.1 ht2]
          exact hne
      · intro t ht ha
        rcases List.mem_append.1 ht with ht2 | ht2
        · exact hac t ht2 ha
        · rw [List.mem_singleton.1 ht2] at ha
          exact absurd rfl ha
      · intro u hu x hx
        rcases hpc u hu x hx with ⟨t, ht, hte⟩
        exact ⟨t, List.mem_append_left _ ht, hte⟩
    · intro u hu t ht
      rcases List.mem_append.1 ht with ht2 | ht2
      · exact hinv u hu t ht2
      · rw [List.mem_singleton.1 ht2]
        constructor
        · intro hmem
          exact absurd hmem (notmem_pend_of_fresh s newId hpc hfresh u hu)
        · rintro ⟨hau, _⟩
          exact absurd hau.symm (hidu u hu)
  | assigned a nm =>
    rcases resolveAssigned_assigned _ _ _ _ hres with ⟨hbo, hane, u0, hu0, hu0id, hu0nm⟩
    show WF (syncPendingTasks ⟨newId, b.name, b.description, b.deadline, b.completed, a, nm, dateNow⟩ (some a) []
        (Store.mk (s.tasks ++ [⟨newId, b.name, b.description, b.deadline, b.completed, a, nm, dateNow⟩]) s.users)) ∧
      Inv (syncPendingTasks ⟨newId, b.name, b.description, b.deadline, b.completed, a, nm, dateNow⟩ (some a) []
        (Store.mk (s.tasks ++ [⟨newId, b.name, b.description, b.deadline, b.completed, a, nm, dateNow⟩]) s.users))
    set task : Task := ⟨newId, b.name, b.description, b.deadline, b.completed, a, nm, dateNow⟩ with htask
    set s1 : Store := Store.mk (s.tasks ++ [task]) s.users with hs1
    have hnd1 : (s1.users.map User.id).Nodup := hndu
    have husers := sync_users_normal task (some a) [] s1 hnd1
    have htasks := sync_tasks_eq task (some a) [] s1
    have hidmap : (syncPendingTasks task (some a) [] s1).users.map User.id = s.users.map User.id := by
      rw [husers, List.map_map]
      exact mapCongrOn _ _ _ (fun u _ => syncUserFun_id task (some a) [] u)
    have htid : task.id = newId := rfl
    constructor
    · refine ⟨?_, ?_, ?_, ?_, ?_, ?_⟩
      · rw [hidmap]
        exact hndu
      · rw [htasks]
        exact nodup_ids_append_task s task hndt hfresh
      · intro u hu
        rw [husers] at hu
        rcases List.mem_map.1 hu with ⟨u1, hu1, rfl⟩
        rw [syncUserFun_id]
        exact hidu u1 hu1
      · rw [htasks]
        intro t ht
        rcases List.mem_append.1 ht with ht2 | ht2
        · exact hidt t ht2
        · rw [List.mem_singleton.1 ht2]
          exact hne
      · rw [htasks]
        intro t ht ha
        have hex : ∃ u2 ∈ s.users, u2.id = t.assignedUser := by
          rcases List.mem_append.1 ht with ht2 | ht2
          · exact hac t ht2 ha
          · rw [List.mem_singleton.1 ht2]
            exact ⟨u0, hu0, hu0id⟩
        rcases hex with ⟨u2, hu2, hu2e⟩
        refine ⟨syncUserFun task (some a) [] u2, ?_, ?_⟩
        · rw [husers]
          exact List.mem_map_of_mem _ hu2
        · rw [syncUserFun_id]
          exact hu2e
      · intro u hu x hx
        rw [husers] at hu
        rcases List.mem_map.1 hu with ⟨u1, hu1, rfl⟩
        rcases mem_pend_syncUserFun_sub task (some a) [] u1 x hx with hxe | hx1
        · rw [htasks, hxe, htid]
          exact ⟨task, List.mem_append_right _ (List.mem_singleton_self _), rfl⟩
        · rcases hpc u1 hu1 x hx1 with ⟨t, ht, hte⟩
          rw [htasks]
          exact ⟨t, List.mem_append_left _ ht, hte⟩
    · intro u hu t ht
      rw [husers] at hu
      rcases List.mem_map.1 hu with ⟨u1, hu1, rfl⟩
      rw [htasks] at ht
      rcases List.mem_append.1 ht with ht2 | ht2
      · have htne : t.id ≠ task.id := by
          rw [htid]
          exact hfresh t ht2
        rw [mem_pend_syncUserFun_ne task (some a) [] u1 t.id htne, syncUserFun_id]
        exact hinv u1 hu1 t ht2
      · rw [List.mem_singleton.1 ht2]
        rw [mem_pend_syncUserFun task (some a) [] u1, syncUserFun_id]
        have hnotold : ¬(task.id ∈ u1.pendingTasks ∧ ¬(u1.id ∈ ([] : List String) ∧ u1.id ≠ "")) := by
          rintro ⟨hmem, _⟩
          exact notmem_pend_of_fresh s newId hpc hfresh u1 hu1 hmem
        constructor
        · rintro (⟨a2, ha2, hane2, hua2, hcomp2⟩ | hold)
          · cases Option.some.inj ha2
            exact ⟨hua2.symm, hcomp2⟩
          · exact absurd hold hnotold
        · rintro ⟨hau, hcomp⟩
          exact Or.inl ⟨a, rfl, hane, hau.symm, hcomp⟩

theorem mem_ite_singleton (c : Prop) [Decidable c] (x y : String) :
    x ∈ (if c then [y] else []) ↔ c ∧ x = y := by
  by_cases h : c
  · rw [if_pos h]
    simp [h]
  · rw [if_neg h]
    simp [h]

theorem replaceCore_eq (id : String) (prev : Task) (b : TaskBody) (a nm : String) (s : Store) :
    replaceCore id prev b a nm s =
      ⟨200, syncPendingTasks (mkReplacement prev b a nm)
        (if b.completed = false ∧ a ≠ "" then some a else none)
        ((if prev.assignedUser ≠ "" then [prev.assignedUser] else []) ++
         (if b.completed = true ∧ a ≠ "" then [a] else []))
        (Store.mk
          (updateFirst (fun t => decide (t.id = id)) (fun _ => mkReplacement prev b a nm) s.tasks)
          s.users)⟩ := rfl

theorem good_replaceCore (id : String) (prev : Task) (b : TaskBody) (a nm : String) (s : Store)
    (hwf : WF s) (hinv : Inv s)
    (hprevmem : prev ∈ s.tasks) (hprevid : prev.id = id)
    (hacase : a = "" ∨ (a ≠ "" ∧ ∃ u0 ∈ s.users, u0.id = a)) :
    WF ((replaceCore id prev b a nm s).store) ∧ Inv ((replaceCore id prev b a nm s).store) := by
  obtain ⟨hndu, hndt, hidu, hidt, hac, hpc⟩ := hwf
  rw [replaceCore_eq]
  set updated : Task := mkReplacement prev b a nm with hupd
  set a? : Option String := if b.completed = false ∧ a ≠ "" then some a else none with ha?
  set rem : List String :=
    (if prev.assignedUser ≠ "" then [prev.assignedUser] else []) ++
    (if b.completed = true ∧ a ≠ "" then [a] else []) with hrem
  set s1 : Store := Store.mk
    (updateFirst (fun t => decide (t.id = id)) (fun _ => updated) s.tasks) s.users with hs1
  have hupdid : updated.id = id := hprevid
  have hupda : updated.assignedUser = a := rfl
  have hupdc : updated.completed = b.completed := rfl
  have hidne : id ≠ "" := hprevid ▸ hidt prev hprevmem
  have h1tasks : s1.tasks = s.tasks.map (fun t => if t.id = id then updated else t) :=
    updateFirst_eq_map Task.id id _ s.tasks hndt
  have hmfnid : ∀ t : Task, (if t.id = id then updated else t).id = t.id := by
    intro t
    by_cases h : t.id = id
    · rw [if_pos h, hupdid, h]
    · rw [if_neg h]
  have hidmapT : s1.tasks.map Task.id = s.tasks.map Task.id := by
    rw [h1tasks, List.map_map]
    exact mapCongrOn _ _ _ (fun t _ => hmfnid t)
  have husers := sync_users_normal updated a? rem s1 hndu
  have htasks2 := sync_tasks_eq updated a? rem s1
  have hmemrem : ∀ x : String, x ∈ rem ↔
      ((prev.assignedUser ≠ "" ∧ x = prev.assignedUser) ∨
       ((b.completed = true ∧ a ≠ "") ∧ x = a)) := by
    intro x
    rw [hrem, List.mem_append, mem_ite_singleton, mem_ite_singleton]
  have hupdmem : updated ∈ s1.tasks := by
    rw [h1tasks]
    exact List.mem_map.2 ⟨prev, hprevmem, if_pos hprevid⟩
  constructor
  · refine ⟨?_, ?_, ?_, ?_, ?_, ?_⟩
    · rw [husers, List.map_map]
      have : s1.users.map (User.id ∘ syncUserFun updated a? rem) = s.users.map User.id :=
        mapCongrOn _ _ _ (fun u _ => syncUserFun_id updated a? rem u)
      rw [this]
      exact hndu
    · rw [htasks2, hidmapT]
      exact hndt
    · intro u hu
      rw [husers] at hu
      rcases List.mem_map.1 hu with ⟨u1, hu1, rfl⟩
      rw [syncUserFun_id]
      exact hidu u1 hu1
    · rw [htasks2, h1tasks]
      intro t ht
      rcases List.mem_map.1 ht with ⟨t0, ht0, rfl⟩
      rw [hmfnid t0]
      exact hidt t0 ht0
    · rw [htasks2, h1tasks]
      intro t ht ha
      rcases List.mem_map.1 ht with ⟨t0, ht0, rfl⟩
      have hex : ∃ u2 ∈ s.users, u2.id = (if t0.id = id then updated else t0).assignedUser := by
        by_cases h : t0.id = id
        · rw [if_pos h] at ha ⊢
          rw [hupda] at ha ⊢
          rcases hacase with rfl | ⟨_, u0, hu0, hu0e⟩
          · exact absurd rfl ha
          · exact ⟨u0, hu0, hu0e⟩
        · rw [if_neg h] at ha ⊢
          exact hac t0 ht0 ha
      rcases hex with ⟨u2, hu2, hu2e⟩
      refine ⟨syncUserFun updated a? rem u2, ?_, ?_⟩
      · rw [husers]
        exact List.mem_map_of_mem _ hu2
      · rw [syncUserFun_id]
        exact hu2e
    · intro u hu x hx
      rw [husers] at hu
      rcases List.mem_map.1 hu with ⟨u1, hu1, rfl⟩
      rcases mem_pend_syncUserFun_sub updated a? rem u1 x hx with hxe | hx1
      · exact ⟨updated, htasks2 ▸ hupdmem, hxe.symm⟩
      · rcases hpc u1 hu1 x hx1 with ⟨t, ht, hte⟩
        rw [htasks2, h1tasks]
        exact ⟨if t.id = id then updated else t, List.mem_map_of_mem _ ht, (hmfnid t).trans hte⟩
  · intro u hu t ht
    rw [husers] at hu
    rcases List.mem_map.1 hu with ⟨u1, hu1, rfl⟩
    rw [htasks2, h1tasks] at ht
    rcases List.mem_map.1 ht with ⟨t0, ht0, rfl⟩
    by_cases hti : t0.id = id
    · -- the replaced document
      have ht0eq : t0 = prev :=
        nodup_key_eq Task.id s.tasks hndt t0 prev ht0 hprevmem (hti.trans hprevid.symm)
      rw [if_pos hti]
      rw [syncUserFun_id, mem_pend_syncUserFun]
      have holdinv := hinv u1 hu1 prev hprevmem
      have hprevpend : prev.id ∈ u1.pendingTasks ↔
          (prev.assignedUser = u1.id ∧ prev.completed = false) := holdinv
      have hu1ne : u1.id ≠ "" := hidu u1 hu1
      have hsecond_false : prev.assignedUser = u1.id → prev.completed = false →
          u1.id ∈ rem ∧ u1.id ≠ "" := by
        intro hpa _
        refine ⟨(hmemrem u1.id).2 (Or.inl ⟨?_, hpa.symm⟩), hu1ne⟩
        rw [hpa]
        exact hu1ne
      have hnosecond : ¬(updated.id ∈ u1.pendingTasks ∧ ¬(u1.id ∈ rem ∧ u1.id ≠ "")) := by
        rintro ⟨hmem, hnr⟩
        rw [hupdid, ← hprevid] at hmem
        rcases hprevpend.1 hmem with ⟨hpa, hpc2⟩
        exact hnr (hsecond_false hpa hpc2)
      rcases hbc : b.completed with _ | _
      · -- completed = false
        by_cases han : a ≠ ""
        · have haq : a? = some a := by
            rw [ha?, if_pos ⟨hbc, han⟩]
          constructor
          · rintro (⟨a2, ha2, hane2, hua2, hcomp2⟩ | hold)
            · rw [haq] at ha2
              cases Option.some.inj ha2
              rw [hupda, hupdc]
              exact ⟨hua2.symm, hbc⟩
            · exact absurd hold hnosecond
          · rintro ⟨hau, hcomp⟩
            rw [hupda] at hau
            exact Or.inl ⟨a, haq, han, hau.symm, hupdc ▸ hcomp⟩
        · have haq : a? = none := by
            rw [ha?, if_neg (fun hcc => han hcc.2)]
          constructor
          · rintro (⟨a2, ha2, _, _, _⟩ | hold)
            · rw [haq] at ha2
              exact absurd ha2 (by simp)
            · exact absurd hold hnosecond
          · rintro ⟨hau, _⟩
            rw [hupda] at hau
            push_neg at han
            rw [han] at hau
            exact absurd hau.symm hu1ne
      · -- completed = true
        have haq : a? = none := by
          rw [ha?, if_neg (fun hcc => by rw [hbc] at hcc; exact absurd hcc.1 (by simp))]
        constructor
        · rintro (⟨a2, ha2, _, _, _⟩ | hold)
          · rw [haq] at ha2
            exact absurd ha2 (by simp)
          · exact absurd hold hnosecond
        · rintro ⟨_, hcomp⟩
          rw [hupdc, hbc] at hcomp
          exact absurd hcomp (by simp)
    · -- untouched documents
      rw [if_neg hti]
      have htne : t0.id ≠ updated.id := by
        rw [hupdid]
        exact hti
      rw [syncUserFun_id, mem_pend_syncUserFun_ne updated a? rem u1 t0.id htne]
      exact hinv u1 hu1 t0 ht0

theorem good_replaceTask (id : String) (b : TaskBody) (s : Store)
    (hwf : WF s) (hinv : Inv s) :
    WF ((replaceTask id b s).store) ∧ Inv ((replaceTask id b s).store) := by
  unfold replaceTask
  by_cases h1 : b.name = "" ∨ b.deadline = ""
  · rw [if_pos h1]
    exact ⟨hwf, hinv⟩
  rw [if_neg h1]
  cases hprev : s.tasks.find? (fun t => decide (t.id = id)) with
  | none => exact ⟨hwf, hinv⟩
  | some prev =>
    rcases find?_id_some Task.id s.tasks id prev hprev with ⟨hpm, hpi⟩
    cases hres : resolveAssigned b.assignedUser s with
    | invalid => exact ⟨hwf, hinv⟩
    | unassigned => exact good_replaceCore id prev b "" "unassigned" s hwf hinv hpm hpi (Or.inl rfl)
    | assigned a nm =>
      rcases resolveAssigned_assigned _ _ _ _ hres with ⟨_, hane, u0, hu0, hu0e, _⟩
      exact good_replaceCore id prev b a nm s hwf hinv hpm hpi (Or.inr ⟨hane, u0, hu0, hu0e⟩)

theorem deleteTask_eq_some (id : String) (s : Store) (d : Task)
    (hfind : s.tasks.find? (fun t => decide (t.id = id)) = some d) :
    deleteTask id s =
      if d.assignedUser ≠ "" then
        ⟨204, Store.mk (s.tasks.eraseP (fun t => decide (t.id = id)))
          (updateFirst (fun u => decide (u.id = d.assignedUser))
            (fun u => { u with pendingTasks := u.pendingTasks.filter (fun x => decide (x ≠ d.id)) })
            s.users)⟩
      else ⟨204, Store.mk (s.tasks.eraseP (fun t => decide (t.id = id))) s.users⟩ := by
  unfold deleteTask
  rw [hfind]

theorem good_deleteTask (id : String) (s : Store) (hwf : WF s) (hinv : Inv s) :
    WF ((deleteTask id s).store) ∧ Inv ((deleteTask id s).store) := by
  obtain ⟨hndu, hndt, hidu, hidt, hac, hpc⟩ := hwf
  rcases hfind : s.tasks.find? (fun t => decide (t.id = id)) with _ | d
  · unfold deleteTask
    rw [hfind]
    exact ⟨⟨hndu, hndt, hidu, hidt, hac, hpc⟩, hinv⟩
  rcases find?_id_some Task.id s.tasks id d hfind with ⟨hdm, hdi⟩
  rw [deleteTask_eq_some id s d hfind]
  have hfilter : s.tasks.eraseP (fun t => decide (t.id = id)) =
      s.tasks.filter (fun t => decide (t.id ≠ id)) :=
    erasePEqFilterOfNodup Task.id id s.tasks hndt
  have hmem2 : ∀ t : Task, t ∈ s.tasks.eraseP (fun t => decide (t.id = id)) ↔
      t ∈ s.tasks ∧ t.id ≠ id := by
    intro t
    rw [hfilter, List.mem_filter]
    simp
  have hnd2 : ((s.tasks.eraseP (fun t => decide (t.id = id))).map Task.id).Nodup := by
    rw [hfilter]
    exact List.Nodup.sublist ((List.filter_sublist _).map _) hndt
  have hd_in_pend : ∀ u ∈ s.users, d.id ∈ u.pendingTasks →
      d.assignedUser = u.id ∧ d.completed = false :=
    fun u hu hmem => (hinv u hu d hdm).1 hmem
  have hclose2 : ∀ u ∈ s.users, ∀ x ∈ u.pendingTasks, x ≠ d.id →
      ∃ t, (t ∈ s.tasks ∧ t.id ≠ id) ∧ t.id = x := by
    intro u hu x hx hxd
    rcases hpc u hu x hx with ⟨t, ht, hte⟩
    refine ⟨t, ⟨ht, ?_⟩, hte⟩
    intro htid
    have : t = d := nodup_key_eq Task.id s.tasks hndt t d ht hdm (htid.trans hdi.symm)
    rw [this] at hte
    exact hxd hte.symm
  by_cases hda : d.assignedUser ≠ ""
  · rw [if_pos hda]
    have husers : updateFirst (fun u => decide (u.id = d.assignedUser))
        (fun u => { u with pendingTasks := u.pendingTasks.filter (fun x => decide (x ≠ d.id)) })
        s.users =
        s.users.map (fun u => if u.id = d.assignedUser then
          { u with pendingTasks := u.pendingTasks.filter (fun x => decide (x ≠ d.id)) } else u) :=
      updateFirst_eq_map User.id d.assignedUser _ s.users hndu
    have hpfnid : ∀ u : User, (if u.id = d.assignedUser then
        { u with pendingTasks := u.pendingTasks.filter (fun x => decide (x ≠ d.id)) } else u).id
        = u.id := by
      intro u
      by_cases h : u.id = d.assignedUser
      · rw [if_pos h]
      · rw [if_neg h]
    constructor
    · refine ⟨?_, hnd2, ?_, ?_, ?_, ?_⟩
      · rw [husers, List.map_map]
        have : s.users.map (User.id ∘ _) = s.users.map User.id :=
          mapCongrOn _ _ _ (fun u _ => hpfnid u)
        rw [this]
        exact hndu
      · intro u hu
        rw [husers] at hu
        rcases List.mem_map.1 hu with ⟨u1, hu1, rfl⟩
        rw [hpfnid]
        exact hidu u1 hu1
      · intro t ht
        exact hidt t ((hmem2 t).1 ht).1
      · intro t ht ha
        rcases hac t ((hmem2 t).1 ht).1 ha with ⟨u2, hu2, hu2e⟩
        refine ⟨if u2.id = d.assignedUser then
          { u2 with pendingTasks := u2.pendingTasks.filter (fun x => decide (x ≠ d.id)) } else u2,
          ?_, ?_⟩
        · rw [husers]
          exact List.mem_map_of_mem _ hu2
        · rw [hpfnid]
          exact hu2e
      · intro u hu x hx
        rw [husers] at hu
        rcases List.mem_map.1 hu with ⟨u1, hu1, rfl⟩
        by_cases hpu : u1.id = d.assignedUser
        · rw [if_pos hpu] at hx
          simp only [List.mem_filter] at hx
          have hxd : x ≠ d.id := by simpa using hx.2
          rcases hclose2 u1 hu1 x hx.1 hxd with ⟨t, ⟨ht, hne⟩, hte⟩
          exact ⟨t, (hmem2 t).2 ⟨ht, hne⟩, hte⟩
        · rw [if_neg hpu] at hx
          have hxd : x ≠ d.id := by
            intro hxe
            rcases hd_in_pend u1 hu1 (hxe ▸ hx) with ⟨hda2, _⟩
            exact hpu hda2.symm
          rcases hclose2 u1 hu1 x hx hxd with ⟨t, ⟨ht, hne⟩, hte⟩
          exact ⟨t, (hmem2 t).2 ⟨ht, hne⟩, hte⟩
    · intro u hu t ht
      rw [husers] at hu
      rcases List.mem_map.1 hu with ⟨u1, hu1, rfl⟩
      rcases (hmem2 t).1 ht with ⟨ht2, htne⟩
      have htnd : t.id ≠ d.id := fun h => htne (h.trans hdi)
      by_cases hpu : u1.id = d.assignedUser
      · rw [if_pos hpu]
        simp only [List.mem_filter]
        constructor
        · rintro ⟨hmem, _⟩
          exact (hinv u1 hu1 t ht2).1 hmem
        · intro hstate
          refine ⟨(hinv u1 hu1 t ht2).2 hstate, by simpa using htnd⟩
      · rw [if_neg hpu]
        exact hinv u1 hu1 t ht2
  · rw [if_neg hda]
    push_neg at hda
    constructor
    · refine ⟨hndu, hnd2, hidu, ?_, ?_, ?_⟩
      · intro t ht
        exact hidt t ((hmem2 t).1 ht).1
      · intro t ht ha
        exact hac t ((hmem2 t).1 ht).1 ha
      · intro u hu x hx
        have hxd : x ≠ d.id := by
          intro hxe
          rcases hd_in_pend u hu (hxe ▸ hx) with ⟨hda2, _⟩
          rw [hda] at hda2
          exact hidu u hu hda2.symm
        rcases hclose2 u hu x hx hxd with ⟨t, ⟨ht, hne⟩, hte⟩
        exact ⟨t, (hmem2 t).2 ⟨ht, hne⟩, hte⟩
    · intro u hu t ht
      exact hinv u hu t ((hmem2 t).1 ht).1

theorem good_append_user_empty (s : Store) (newUser : User)
    (hwf : WF s) (hinv : Inv s) (hne : newUser.id ≠ "")
    (hfresh : ∀ u ∈ s.users, u.id ≠ newUser.id) (hpend : newUser.pendingTasks = []) :
    WF (Store.mk s.tasks (s.users ++ [newUser])) ∧
    Inv (Store.mk s.tasks (s.users ++ [newUser])) := by
  obtain ⟨hndu, hndt, hidu, hidt, hac, hpc⟩ := hwf
  have hassign_ne : ∀ t ∈ s.tasks, t.assignedUser ≠ newUser.id := by
    intro t ht he
    by_cases ha : t.assignedUser = ""
    · rw [ha] at he
      exact hne he.symm
    · rcases hac t ht ha with ⟨u2, hu2, hu2e⟩
      exact hfresh u2 hu2 (hu2e.trans he)
  constructor
  · refine ⟨?_, hndt, ?_, hidt, ?_, ?_⟩
    · rw [List.map_append, List.nodup_append]
      refine ⟨hndu, by simp, ?_⟩
      intro x hx hx2
      rcases List.mem_map.1 hx with ⟨u, hu, rfl⟩
      have : u.id = newUser.id := by simpa using hx2
      exact hfresh u hu this
    · intro u hu
      rcases List.mem_append.1 hu with hu2 | hu2
      · exact hidu u hu2
      · rw [List.mem_singleton.1 hu2]
        exact hne
    · intro t ht ha
      rcases hac t ht ha with ⟨u2, hu2, hu2e⟩
      exact ⟨u2, List.mem_append_left _ hu2, hu2e⟩
    · intro u hu x hx
      rcases List.mem_append.1 hu with hu2 | hu2
      · exact hpc u hu2 x hx
      · rw [List.mem_singleton.1 hu2, hpend] at hx
        cases hx
  · intro u hu t ht
    rcases List.mem_append.1 hu with hu2 | hu2
    · exact hinv u hu2 t ht
    · rw [List.mem_singleton.1 hu2, hpend]
      constructor
      · intro hx
        cases hx
      · rintro ⟨hau, _⟩
        exact absurd hau (hassign_ne t ht)

theorem good_createUserTx (newId dateNow : String) (b : UserBody) (s : Store)
    (hwf : WF s) (hinv : Inv s) (hne : newId ≠ "") (hfresh : ∀ u ∈ s.users, u.id ≠ newId) :
    WF ((createUserTx newId dateNow b s).store) ∧ Inv ((createUserTx newId dateNow b s).store) := by
  obtain ⟨hndu, hndt, hidu, hidt, hac, hpc⟩ := hwf
  unfold createUserTx
  by_cases h1 : b.name = "" ∨ b.email = ""
  · rw [if_pos h1]
    exact ⟨⟨hndu, hndt, hidu, hidt, hac, hpc⟩, hinv⟩
  rw [if_neg h1]
  by_cases h2 : s.users.any (fun u => decide (u.email = b.email)) = true
  · rw [if_pos h2]
    exact ⟨⟨hndu, hndt, hidu, hidt, hac, hpc⟩, hinv⟩
  rw [if_neg h2]
  simp only []
  set tids : List String :=
    (match b.pendingTasks with
     | some l => asUniqueIdStrings l
     | none => []) with htids
  set newUser : User := ⟨newId, b.name, b.email, [], dateNow⟩ with hnewUser
  have hndtids : tids.Nodup := by
    rw [htids]
    cases b.pendingTasks with
    | none => exact List.nodup_nil
    | some l => exact nodup_asUniqueIdStrings l
  have htidne : ∀ x ∈ tids, x ≠ "" := by
    rw [htids]
    cases b.pendingTasks with
    | none =>
      intro x hx
      cases hx
    | some l =>
      intro x hx
      exact ((mem_asUniqueIdStrings l x).1 hx).2
  have hnewid : newUser.id = newId := rfl
  have hfresh2 : ∀ u ∈ s.users, u.id ≠ newUser.id := hfresh
  by_cases h3 : tids = []
  · rw [if_pos h3]
    exact good_append_user_empty s newUser ⟨hndu, hndt, hidu, hidt, hac, hpc⟩ hinv hne hfresh2 rfl
  rw [if_neg h3]
  set found : List Task := s.tasks.filter (fun t => decide (t.id ∈ tids)) with hfound
  by_cases h4 : found.length ≠ tids.length
  · rw [if_pos h4]
    exact ⟨⟨hndu, hndt, hidu, hidt, hac, hpc⟩, hinv⟩
  rw [if_neg h4]
  push_neg at h4
  by_cases h5 : found.any (fun t => t.completed) = true
  · rw [if_pos h5]
    exact ⟨⟨hndu, hndt, hidu, hidt, hac, hpc⟩, hinv⟩
  rw [if_neg h5]
  -- the successful transactional path
  have hmemfound : ∀ t : Task, t ∈ found ↔ t ∈ s.tasks ∧ t.id ∈ tids := by
    intro t
    rw [hfound, List.mem_filter]
    simp
  have hnotcomp : ∀ t ∈ found, t.completed = false := by
    intro t ht
    cases hcc : t.completed
    · rfl
    · exact absurd (List.any_eq_true.2 ⟨t, ht, hcc⟩) h5
  have hexists : ∀ x ∈ tids, ∃ t ∈ s.tasks, t.id = x :=
    forallMemOfFilterLengthEq Task.id s.tasks tids hndt h4
  set oldUserIds : List String :=
    asUniqueIdStrings (found.map (fun t => t.assignedUser)) with holdids
  have hmemold : ∀ x : String, x ∈ oldUserIds ↔
      (∃ t ∈ found, t.assignedUser = x) ∧ x ≠ "" := by
    intro x
    rw [holdids, mem_asUniqueIdStrings]
    constructor
    · rintro ⟨hx1, hx2⟩
      rcases List.mem_map.1 hx1 with ⟨t, ht, rfl⟩
      exact ⟨⟨t, ht, rfl⟩, hx2⟩
    · rintro ⟨⟨t, ht, rfl⟩, hx2⟩
      exact ⟨List.mem_map_of_mem _ ht, hx2⟩
  have hold_user : ∀ x ∈ oldUserIds, ∃ u2 ∈ s.users, u2.id = x := by
    intro x hx
    rcases (hmemold x).1 hx with ⟨⟨t, ht, hte⟩, hx2⟩
    rcases hac t ((hmemfound t).1 ht).1 (by rw [hte]; exact hx2) with ⟨u2, hu2, hu2e⟩
    exact ⟨u2, hu2, hu2e.trans hte⟩
  have hold_ne_new : ∀ x ∈ oldUserIds, x ≠ newId := by
    intro x hx he
    rcases hold_user x hx with ⟨u2, hu2, hu2e⟩
    exact hfresh u2 hu2 (hu2e.trans he)
  set tfn : Task → Task := fun t =>
    if t.id ∈ tids then
      { t with assignedUser := newId, assignedUserName := b.name, completed := false }
    else t with htfn
  set pfn : User → User := fun u =>
    if u.id ∈ oldUserIds then
      { u with pendingTasks := u.pendingTasks.filter (fun x => decide (x ∉ tids)) }
    else u with hpfn
  have htfnid : ∀ t : Task, (tfn t).id = t.id := by
    intro t
    simp only [htfn]
    by_cases h : t.id ∈ tids
    · rw [if_pos h]
    · rw [if_neg h]
  have hpfnid : ∀ u : User, (pfn u).id = u.id := by
    intro u
    simp only [hpfn]
    by_cases h : u.id ∈ oldUserIds
    · rw [if_pos h]
    · rw [if_neg h]
  have husers2 :
      (if oldUserIds = [] then s.users ++ [newUser]
       else (s.users ++ [newUser]).map pfn) = (s.users ++ [newUser]).map pfn := by
    by_cases ho : oldUserIds = []
    · rw [if_pos ho]
      symm
      apply mapEqSelfOf
      intro u hu
      simp only [hpfn]
      have : ¬(u.id ∈ oldUserIds) := by
        rw [ho]
        exact List.not_mem_nil _
      rw [if_neg this]
    · rw [if_neg ho]
  rw [husers2]
  have hnd1 : (((s.users ++ [newUser]).map pfn).map User.id).Nodup := by
    rw [List.map_map]
    have h1 : (s.users ++ [newUser]).map (User.id ∘ pfn) = (s.users ++ [newUser]).map User.id :=
      mapCongrOn _ _ _ (fun u _ => hpfnid u)
    rw [h1, List.map_append]
    rw [List.nodup_append]
    refine ⟨hndu, by simp, ?_⟩
    intro x hx hx2
    rcases List.mem_map.1 hx with ⟨u, hu, rfl⟩
    have : u.id = newUser.id := by simpa using hx2
    exact hfresh2 u hu this
  rw [updateFirst_eq_map User.id newId _ _ hnd1, List.map_map]
  set afn : User → User := fun u =>
    if u.id = newId then { u with pendingTasks := addEach tids u.pendingTasks } else u with hafn
  set gfn : User → User := fun u => afn (pfn u) with hgfn
  have hmap3 : (fun u => if u.id = newId then
        { u with pendingTasks := addEach tids u.pendingTasks } else u) ∘ pfn = gfn := rfl
  rw [hmap3]
  have hgid : ∀ u : User, (gfn u).id = u.id := by
    intro u
    simp only [hgfn, hafn]
    by_cases h : (pfn u).id = newId
    · rw [if_pos h, ← hpfnid u]
    · rw [if_neg h]
      exact hpfnid u
  have hg_old : ∀ u ∈ s.users, gfn u = pfn u := by
    intro u hu
    simp only [hgfn, hafn]
    rw [if_neg (fun hc => hfresh u hu ((hpfnid u).symm.trans hc))]
  have hg_new : gfn newUser = ⟨newId, b.name, b.email, addEach tids [], dateNow⟩ := by
    have hp1 : pfn newUser = newUser := by
      simp only [hpfn]
      rw [if_neg (fun hc => hold_ne_new newUser.id hc rfl)]
    have hp2 : afn newUser = ⟨newId, b.name, b.email, addEach tids [], dateNow⟩ := by
      simp only [hafn, hnewUser]
      simp
    calc gfn newUser = afn (pfn newUser) := by simp only [hgfn]
      _ = afn newUser := by rw [hp1]
      _ = _ := hp2
  have hmem_g_new : ∀ x : String, x ∈ (gfn newUser).pendingTasks ↔ x ∈ tids := by
    intro x
    rw [hg_new]
    show x ∈ addEach tids [] ↔ x ∈ tids
    rw [mem_addEach]
    simp
  have hmem_g_old : ∀ u ∈ s.users, ∀ x : String,
      x ∈ (gfn u).pendingTasks ↔
        (x ∈ u.pendingTasks ∧ (u.id ∈ oldUserIds → x ∉ tids)) := by
    intro u hu x
    rw [hg_old u hu]
    simp only [hpfn]
    by_cases h : u.id ∈ oldUserIds
    · rw [if_pos h]
      simp only [List.mem_filter]
      constructor
      · rintro ⟨h1, h2⟩
        exact ⟨h1, fun _ => by simpa using h2⟩
      · rintro ⟨h1, h2⟩
        exact ⟨h1, by simpa using h2 h⟩
    · rw [if_neg h]
      constructor
      · intro h1
        exact ⟨h1, fun hc => absurd hc h⟩
      · rintro ⟨h1, _⟩
        exact h1
  have hassigned_old_ne : ∀ t ∈ s.tasks, t.assignedUser ≠ newId := by
    intro t ht he
    by_cases ha : t.assignedUser = ""
    · rw [ha] at he
      exact hne he.symm
    · rcases hac t ht ha with ⟨u2, hu2, hu2e⟩
      exact hfresh u2 hu2 (hu2e.trans he)
  constructor
  · -- WF of the committed store
    refine ⟨?_, ?_, ?_, ?_, ?_, ?_⟩
    · rw [List.map_map]
      have h1 : (s.users ++ [newUser]).map (User.id ∘ gfn) = (s.users ++ [newUser]).map User.id :=
        mapCongrOn _ _ _ (fun u _ => hgid u)
      rw [h1, List.map_append, List.nodup_append]
      refine ⟨hndu, by simp, ?_⟩
      intro x hx hx2
      rcases List.mem_map.1 hx with ⟨u, hu, rfl⟩
      have : u.id = newUser.id := by simpa using hx2
      exact hfresh2 u hu this
    · rw [List.map_map]
      have h1 : s.tasks.map (Task.id ∘ tfn) = s.tasks.map Task.id :=
        mapCongrOn _ _ _ (fun t _ => htfnid t)
      rw [h1]
      exact hndt
    · intro u hu
      rcases List.mem_map.1 hu with ⟨u1, hu1, rfl⟩
      rw [hgid]
      rcases List.mem_append.1 hu1 with hu2 | hu2
      · exact hidu u1 hu2
      · rw [List.mem_singleton.1 hu2, hnewid]
        exact hne
    · intro t ht
      rcases List.mem_map.1 ht with ⟨t1, ht1, rfl⟩
      rw [htfnid]
      exact hidt t1 ht1
    · intro t ht ha
      rcases List.mem_map.1 ht with ⟨t1, ht1, rfl⟩
      by_cases hin : t1.id ∈ tids
      · refine ⟨gfn newUser, ?_, ?_⟩
        · exact List.mem_map_of_mem _ (List.mem_append_right _ (List.mem_singleton_self _))
        · rw [hgid, hnewid]
          simp only [htfn]
          rw [if_pos hin]
      · simp only [htfn] at ha ⊢
        rw [if_neg hin] at ha ⊢
        rcases hac t1 ht1 ha with ⟨u2, hu2, hu2e⟩
        refine ⟨gfn u2, ?_, ?_⟩
        · exact List.mem_map_of_mem _ (List.mem_append_left _ hu2)
        · rw [hgid]
          exact hu2e
    · intro u hu x hx
      rcases List.mem_map.1 hu with ⟨u1, hu1, rfl⟩
      rcases List.mem_append.1 hu1 with hu2 | hu2
      · rcases ((hmem_g_old u1 hu2 x).1 hx) with ⟨hx1, _⟩
        rcases hpc u1 hu2 x hx1 with ⟨t, ht, hte⟩
        exact ⟨tfn t, List.mem_map_of_mem _ ht, (htfnid t).trans hte⟩
      · rw [List.mem_singleton.1 hu2] at hx
        have hxtids : x ∈ tids := (hmem_g_new x).1 hx
        rcases hexists x hxtids with ⟨t, ht, hte⟩
        exact ⟨tfn t, List.mem_map_of_mem _ ht, (htfnid t).trans hte⟩
  · -- Inv of the committed store
    intro u hu t ht
    rcases List.mem_map.1 hu with ⟨u1, hu1, rfl⟩
    rcases List.mem_map.1 ht with ⟨t1, ht1, rfl⟩
    rcases List.mem_append.1 hu1 with hu2 | hu2
    · -- pre-existing users
      have huid_ne : u1.id ≠ newId := hfresh u1 hu2
      by_cases hin : t1.id ∈ tids
      · have htfneq : tfn t1 =
            { t1 with assignedUser := newId, assignedUserName := b.name, completed := false } := by
          simp only [htfn]
          rw [if_pos hin]
        rw [htfneq]
        have ht1found : t1 ∈ found := (hmemfound t1).2 ⟨ht1, hin⟩
        constructor
        · intro hmem
          rcases (hmem_g_old u1 hu2 t1.id).1 hmem with ⟨hx1, hx2⟩
          have holdmem : t1.id ∈ u1.pendingTasks := hx1
          rcases (hinv u1 hu2 t1 ht1).1 holdmem with ⟨hta, htc⟩
          have hu1old : u1.id ∈ oldUserIds := by
            refine (hmemold u1.id).2 ⟨⟨t1, ht1found, hta⟩, hidu u1 hu2⟩
          exact absurd hin (hx2 hu1old)
        · rintro ⟨hau, _⟩
          rw [hgid] at hau
          exact absurd hau.symm huid_ne
      · have htfneq : tfn t1 = t1 := by
          simp only [htfn]
          rw [if_neg hin]
        rw [htfneq, hgid]
        rw [hmem_g_old u1 hu2 t1.id]
        constructor
        · rintro ⟨hx1, _⟩
          exact (hinv u1 hu2 t1 ht1).1 hx1
        · intro hstate
          exact ⟨(hinv u1 hu2 t1 ht1).2 hstate, fun _ => hin⟩
    · -- the freshly created user
      rw [List.mem_singleton.1 hu2]
      have hgnewid : (gfn newUser).id = newId := by
        rw [hgid, hnewid]
      rw [hgnewid, hmem_g_new]
      by_cases hin : t1.id ∈ tids
      · have htfneq : tfn t1 =
            { t1 with assignedUser := newId, assignedUserName := b.name, completed := false } := by
          simp only [htfn]
          rw [if_pos hin]
        rw [htfneq]
        simp [hin]
      · have htfneq : tfn t1 = t1 := by
          simp only [htfn]
          rw [if_neg hin]
        rw [htfneq]
        constructor
        · intro hmem
          exact absurd hmem hin
        · rintro ⟨hau, _⟩
          exact absurd hau (hassigned_old_ne t1 ht1)

theorem good_applyOp_sync (op : Op) (s : Store) (hwf : WF s) (hinv : Inv s)
    (hsync : OpIsSync op) (hfresh : OpFresh op s) :
    WF (applyOp op s) ∧ Inv (applyOp op s) := by
  cases op with
  | taskCreate newId dateNow b => exact good_createTask newId dateNow b s hwf hinv hfresh.1 hfresh.2
  | taskReplace id b => exact good_replaceTask id b s hwf hinv
  | taskDelete id => exact good_deleteTask id s hwf hinv
  | userCreateTx newId dateNow b =>
    exact good_createUserTx newId dateNow b s hwf hinv hfresh.1 hfresh.2
  | userCreatePlain newId dateNow b => exact hsync.elim
  | userUpdate id b => exact hsync.elim
  | userDelete id => exact hsync.elim

theorem replaceCore_spec (id : String) (prev : Task) (b : TaskBody) (a nm : String) (s : Store) :
    replaceCore id prev b a nm s =
      ⟨200, syncPendingTasks (mkReplacement prev b a nm)
        (specPutAdd (mkReplacement prev b a nm))
        (specPutRemove prev.assignedUser (mkReplacement prev b a nm))
        (Store.mk
          (updateFirst (fun t => decide (t.id = id)) (fun _ => mkReplacement prev b a nm) s.tasks)
          s.users)⟩ := by
  rw [replaceCore_eq]
  have h1 : (if b.completed = false ∧ a ≠ "" then some a else none) =
      specPutAdd (mkReplacement prev b a nm) := by
    show (if b.completed = false ∧ a ≠ "" then some a else none) =
      (if b.completed = true then none else if a ≠ "" then some a else none)
    cases hcb : b.completed <;> simp
  rw [h1]
  rfl

/-! ### Preservation of the assignment-name invariant -/

theorem mem_map_exists_user (l : List User) (f : User → User) (u : User) (hu : u ∈ l.map f)
    (hf : ∀ v, (f v).id = v.id ∧ (f v).name = v.name) :
    ∃ u0 ∈ l, u.id = u0.id ∧ u.name = u0.name := by
  rcases List.mem_map.1 hu with ⟨u0, hu0, rfl⟩
  exact ⟨u0, hu0, (hf u0).1, (hf u0).2⟩

theorem mem_updateFirst_exists_user (l : List User) (p : User → Bool) (f : User → User)
    (u : User) (hu : u ∈ updateFirst p f l)
    (hf : ∀ v, (f v).id = v.id ∧ (f v).name = v.name) :
    ∃ u0 ∈ l, u.id = u0.id ∧ u.name = u0.name := by
  rcases mem_updateFirst p f l u hu with h | ⟨u0, hu0, _, rfl⟩
  · exact ⟨u, h, rfl, rfl⟩
  · exact ⟨u0, hu0, (hf u0).1, (hf u0).2⟩

theorem users_sync_exists (task : Task) (a? : Option String) (rem : List String) (s : Store) :
    ∀ u ∈ (syncPendingTasks task a? rem s).users,
      ∃ u0 ∈ s.users, u.id = u0.id ∧ u.name = u0.name := by
  unfold syncPendingTasks
  simp only []
  have hstep1 : ∀ u ∈ (if asUniqueIdStrings rem = [] then s.users
      else s.users.map (fun u =>
        if u.id ∈ asUniqueIdStrings rem then
          { u with pendingTasks := u.pendingTasks.filter (fun x => decide (x ≠ task.id)) }
        else u)),
      ∃ u0 ∈ s.users, u.id = u0.id ∧ u.name = u0.name := by
    by_cases hrem : asUniqueIdStrings rem = []
    · rw [if_pos hrem]
      intro u hu
      exact ⟨u, hu, rfl, rfl⟩
    · rw [if_neg hrem]
      intro u hu
      refine mem_map_exists_user _ _ u hu ?_
      intro v
      by_cases h : v.id ∈ asUniqueIdStrings rem
      · rw [if_pos h]
        exact ⟨rfl, rfl⟩
      · rw [if_neg h]
        exact ⟨rfl, rfl⟩
  cases a? with
  | none => exact hstep1
  | some a =>
    simp only []
    by_cases hcond : a ≠ "" ∧ task.completed = false
    · rw [if_pos hcond]
      intro u hu
      rcases mem_updateFirst_exists_user _ _ _ u hu (fun v => ⟨rfl, rfl⟩) with ⟨u1, hu1, he1, he2⟩
      rcases hstep1 u1 hu1 with ⟨u0, hu0, he3, he4⟩
      exact ⟨u0, hu0, he1.trans he3, he2.trans he4⟩
    · rw [if_neg hcond]
      exact hstep1

theorem usersNameOk_sync (task : Task) (a? : Option String) (rem : List String) (s : Store)
    (h : UsersNameOk s) : UsersNameOk (syncPendingTasks task a? rem s) := by
  intro u hu
  rcases users_sync_exists task a? rem s u hu with ⟨u0, hu0, he1, he2⟩
  rw [he1, he2]
  exact h u0 hu0

theorem nameOk_applyOp (op : Op) (s : Store)
    (h1 : TaskNameInv s) (h2 : UsersNameOk s) (hok : OpNameOk op s) :
    TaskNameInv (applyOp op s) ∧ UsersNameOk (applyOp op s) := by
  cases op with
  | taskCreate newId dateNow b =>
    show TaskNameInv (createTask newId dateNow b s).store ∧
      UsersNameOk (createTask newId dateNow b s).store
    unfold createTask
    by_cases hg : b.name = "" ∨ b.deadline = ""
    · rw [if_pos hg]
      exact ⟨h1, h2⟩
    rw [if_neg hg]
    cases hres : resolveAssigned b.assignedUser s with
    | invalid => exact ⟨h1, h2⟩
    | unassigned =>
      constructor
      · intro t ht
        rcases List.mem_append.1 ht with ht2 | ht2
        · exact h1 t ht2
        · rw [List.mem_singleton.1 ht2]
          simp
      · exact h2
    | assigned a nm =>
      rcases resolveAssigned_assigned _ _ _ _ hres with ⟨_, hane, u0, hu0, _, hu0nm⟩
      have hnm : nm ≠ "unassigned" := by
        rw [← hu0nm]
        exact (h2 u0 hu0).2
      show TaskNameInv (syncPendingTasks
          ⟨newId, b.name, b.description, b.deadline, b.completed, a, nm, dateNow⟩ (some a) []
          (Store.mk (s.tasks ++ [⟨newId, b.name, b.description, b.deadline, b.completed, a, nm, dateNow⟩])
            s.users)) ∧
        UsersNameOk (syncPendingTasks
          ⟨newId, b.name, b.description, b.deadline, b.completed, a, nm, dateNow⟩ (some a) []
          (Store.mk (s.tasks ++ [⟨newId, b.name, b.description, b.deadline, b.completed, a, nm, dateNow⟩])
            s.users))
      constructor
      · intro t ht
        rw [sync_tasks_eq] at ht
        rcases List.mem_append.1 ht with ht2 | ht2
        · exact h1 t ht2
        · rw [List.mem_singleton.1 ht2]
          show (a = "" ↔ nm = "unassigned")
          constructor
          · intro h
            exact absurd h hane
          · intro h
            exact absurd h hnm
      · exact usersNameOk_sync _ _ _ _ h2
  | taskReplace id b =>
    show TaskNameInv (replaceTask id b s).store ∧ UsersNameOk (replaceTask id b s).store
    unfold replaceTask
    by_cases hg : b.name = "" ∨ b.deadline = ""
    · rw [if_pos hg]
      exact ⟨h1, h2⟩
    rw [if_neg hg]
    cases hprev : s.tasks.find? (fun t => decide (t.id = id)) with
    | none => exact ⟨h1, h2⟩
    | some prev =>
      have hcore : ∀ a nm, (a = "" ↔ nm = "unassigned") →
          TaskNameInv (replaceCore id prev b a nm s).store ∧
          UsersNameOk (replaceCore id prev b a nm s).store := by
        intro a nm hiff
        constructor
        · intro t ht
          have ht2 : t ∈ updateFirst (fun t => decide (t.id = id))
              (fun _ => mkReplacement prev b a nm) s.tasks := ht
          rcases mem_updateFirst _ _ _ t ht2 with ht3 | ⟨t0, _, _, rfl⟩
          · exact h1 t ht3
          · exact hiff
        · exact usersNameOk_sync _ _ _ _ h2
      cases hres : resolveAssigned b.assignedUser s with
      | invalid => exact ⟨h1, h2⟩
      | unassigned =>
        exact hcore "" "unassigned" (by simp)
      | assigned a nm =>
        rcases resolveAssigned_assigned _ _ _ _ hres with ⟨_, hane, u0, hu0, _, hu0nm⟩
        have hnm : nm ≠ "unassigned" := by
          rw [← hu0nm]
          exact (h2 u0 hu0).2
        refine hcore a nm ?_
        constructor
        · intro h
          exact absurd h hane
        · intro h
          exact absurd h hnm
  | taskDelete id =>
    show TaskNameInv (deleteTask id s).store ∧ UsersNameOk (deleteTask id s).store
    cases hfind : s.tasks.find? (fun t => decide (t.id = id)) with
    | none =>
      unfold deleteTask
      rw [hfind]
      exact ⟨h1, h2⟩
    | some d =>
      rw [deleteTask_eq_some id s d hfind]
      have htasks : TaskNameInv
          (Store.mk (s.tasks.eraseP (fun t => decide (t.id = id))) s.users) := by
        intro t ht
        exact h1 t ((List.eraseP_sublist _).subset ht)
      by_cases hda : d.assignedUser ≠ ""
      · rw [if_pos hda]
        constructor
        · intro t ht
          exact h1 t ((List.eraseP_sublist _).subset ht)
        · intro u hu
          rcases mem_updateFirst_exists_user _ _ _ u hu (fun v => ⟨rfl, rfl⟩) with
            ⟨u0, hu0, he1, he2⟩
          rw [he1, he2]
          exact h2 u0 hu0
      · rw [if_neg hda]
        exact ⟨htasks, h2⟩
  | userCreateTx newId dateNow b =>
    show TaskNameInv (createUserTx newId dateNow b s).store ∧
      UsersNameOk (createUserTx newId dateNow b s).store
    rcases hok with ⟨hokid, hokname⟩
    unfold createUserTx
    by_cases hg : b.name = "" ∨ b.email = ""
    · rw [if_pos hg]
      exact ⟨h1, h2⟩
    rw [if_neg hg]
    by_cases hdup : s.users.any (fun u => decide (u.email = b.email)) = true
    · rw [if_pos hdup]
      exact ⟨h1, h2⟩
    rw [if_neg hdup]
    simp only []
    have husersnew : UsersNameOk (Store.mk s.tasks
        (s.users ++ [⟨newId, b.name, b.email, [], dateNow⟩])) := by
      intro u hu
      rcases List.mem_append.1 hu with hu2 | hu2
      · exact h2 u hu2
      · rw [List.mem_singleton.1 hu2]
        exact ⟨hokid, hokname⟩
    by_cases h3 : (match b.pendingTasks with
        | some l => asUniqueIdStrings l
        | none => []) = []
    · rw [if_pos h3]
      exact ⟨h1, husersnew⟩
    rw [if_neg h3]
    by_cases h4 : (s.tasks.filter (fun t => decide (t.id ∈
        (match b.pendingTasks with
         | some l => asUniqueIdStrings l
         | none => [])))).length ≠
        (match b.pendingTasks with
         | some l => asUniqueIdStrings l
         | none => []).length
    · rw [if_pos h4]
      exact ⟨h1, h2⟩
    rw [if_neg h4]
    by_cases h5 : (s.tasks.filter (fun t => decide (t.id ∈
        (match b.pendingTasks with
         | some l => asUniqueIdStrings l
         | none => [])))).any (fun t => t.completed) = true
    · rw [if_pos h5]
      exact ⟨h1, h2⟩
    rw [if_neg h5]
    constructor
    · intro t ht
      rcases List.mem_map.1 ht with ⟨t0, ht0, rfl⟩
      try simp only []
      by_cases hin : t0.id ∈ (match b.pendingTasks with
        | some l => asUniqueIdStrings l
        | none => [])
      · rw [if_pos hin]
        show (newId = "" ↔ b.name = "unassigned")
        constructor
        · intro h
          exact absurd h hokid
        · intro h
          exact absurd h hokname
      · rw [if_neg hin]
        exact h1 t0 ht0
    · intro u hu
      rcases mem_updateFirst_exists_user _ _ _ u hu (fun v => ⟨rfl, rfl⟩) with ⟨u1, hu1, he1, he2⟩
      have hstep : ∃ u0 ∈ s.users ++ [(⟨newId, b.name, b.email, [], dateNow⟩ : User)],
          u1.id = u0.id ∧ u1.name = u0.name := by
        by_cases ho : asUniqueIdStrings ((s.tasks.filter (fun t => decide (t.id ∈
            (match b.pendingTasks with
             | some l => asUniqueIdStrings l
             | none => [])))).map (fun t => t.assignedUser)) = []
        · rw [if_pos ho] at hu1
          exact ⟨u1, hu1, rfl, rfl⟩
        · rw [if_neg ho] at hu1
          refine mem_map_exists_user _ _ u1 hu1 ?_
          intro u2
          by_cases h : u2.id ∈ asUniqueIdStrings ((s.tasks.filter (fun t => decide (t.id ∈
              (match b.pendingTasks with
               | some l => asUniqueIdStrings l
               | none => [])))).map (fun t => t.assignedUser))
          · rw [if_pos h]
            exact ⟨rfl, rfl⟩
          · rw [if_neg h]
            exact ⟨rfl, rfl⟩
      rcases hstep with ⟨u0, hu0, he3, he4⟩
      rw [he1, he2, he3, he4]
      exact husersnew u0 hu0
  | userCreatePlain newId dateNow b =>
    show TaskNameInv (createUserPlain newId dateNow b s).store ∧
      UsersNameOk (createUserPlain newId dateNow b s).store
    rcases hok with ⟨hokid, hokname⟩
    unfold createUserPlain
    by_cases hg : b.name = "" ∨ b.email = ""
    · rw [if_pos hg]
      exact ⟨h1, h2⟩
    rw [if_neg hg]
    by_cases hdup : s.users.any (fun u => decide (u.email = b.email)) = true
    · rw [if_pos hdup]
      exact ⟨h1, h2⟩
    rw [if_neg hdup]
    have husersnew : UsersNameOk (Store.mk s.tasks
        (s.users ++ [⟨newId, b.name, b.email, b.pendingTasks.getD [], dateNow⟩])) := by
      intro u hu
      rcases List.mem_append.1 hu with hu2 | hu2
      · exact h2 u hu2
      · rw [List.mem_singleton.1 hu2]
        exact ⟨hokid, hokname⟩
    cases hbp : b.pendingTasks with
    | none =>
      rw [hbp] at husersnew
      exact ⟨h1, husersnew⟩
    | some l =>
      rw [hbp] at husersnew
      constructor
      · intro t ht
        rcases List.mem_map.1 ht with ⟨t0, ht0, rfl⟩
        try simp only []
        by_cases hin : t0.id ∈ l
        · rw [if_pos hin]
          show (newId = "" ↔ b.name = "unassigned")
          constructor
          · intro h
            exact absurd h hokid
          · intro h
            exact absurd h hokname
        · rw [if_neg hin]
          exact h1 t0 ht0
      · intro u hu
        exact husersnew u hu
  | userUpdate id b =>
    show TaskNameInv (updateUser id b s).store ∧ UsersNameOk (updateUser id b s).store
    cases hfind : s.users.find? (fun u => decide (u.id = id)) with
    | none =>
      unfold updateUser
      rw [hfind]
      exact ⟨h1, h2⟩
    | some u0 =>
      rcases find?_id_some User.id s.users id u0 hfind with ⟨hu0mem, _⟩
      have hu0ok := h2 u0 hu0mem
      have hok2 : b.name ≠ some "unassigned" := hok
      have hu1id : (b.name.getD u0.name) ≠ "unassigned" := by
        cases hb : b.name with
        | none => exact hu0ok.2
        | some n =>
          intro hc
          rw [hb] at hok2
          exact hok2 (congrArg some hc)
      unfold updateUser
      rw [hfind]
      simp only []
      have husers1 : UsersNameOk (Store.mk s.tasks
          (updateFirst (fun u => decide (u.id = id))
            (fun _ => { u0 with
              name := b.name.getD u0.name
              email := b.email.getD u0.email
              pendingTasks := b.pendingTasks.getD u0.pendingTasks }) s.users)) := by
        intro u hu
        rcases mem_updateFirst _ _ _ u hu with h | ⟨_, _, _, rfl⟩
        · exact h2 u h
        · exact ⟨hu0ok.1, hu1id⟩
      by_cases htids : asUniqueIdStrings (b.pendingTasks.getD []) = []
      · rw [if_pos htids]
        exact ⟨h1, husers1⟩
      · rw [if_neg htids]
        constructor
        · intro t ht
          rcases List.mem_map.1 ht with ⟨t0, ht0, rfl⟩
          try simp only []
          by_cases hin : t0.id ∈ asUniqueIdStrings (b.pendingTasks.getD [])
          · rw [if_pos hin]
            show (u0.id = "" ↔ b.name.getD u0.name = "unassigned")
            constructor
            · intro h
              exact absurd h hu0ok.1
            · intro h
              exact absurd h hu1id
          · rw [if_neg hin]
            exact h1 t0 ht0
        · exact husers1
  | userDelete id =>
    show TaskNameInv (deleteUser id s).store ∧ UsersNameOk (deleteUser id s).store
    cases hfind : s.users.find? (fun u => decide (u.id = id)) with
    | none =>
      unfold deleteUser
      rw [hfind]
      exact ⟨h1, h2⟩
    | some u0 =>
      unfold deleteUser
      rw [hfind]
      constructor
      · intro t ht
        rcases List.mem_map.1 ht with ⟨t0, ht0, rfl⟩
        try simp only []
        by_cases hin : t0.assignedUser = id
        · rw [if_pos hin]
          simp
        · rw [if_neg hin]
          exact h1 t0 ht0
      · intro u hu
        exact h2 u ((List.eraseP_sublist _).subset hu)

/-! ### Claims about the synchronizer and simple routes -/

/-- C3: one `syncPendingTasks(task, addForUserId, removeFromUserIds)` call
leaves tasks untouched and, per user: identity fields unchanged; the
task's id is removed for every (normalized) listed user and added exactly
when `addForUserId` is truthy and the task is not completed (no add when
completed, even with an add target); other entries and set-ness are
preserved. -/
theorem claim_C3 (task : Task) (a? : Option String) (rem : List String) (s : Store)
    (h : (s.users.map User.id).Nodup) :
    (syncPendingTasks task a? rem s).tasks = s.tasks ∧
    List.Forall₂ (c3Rel task a? rem) s.users (syncPendingTasks task a? rem s).users := by
  refine ⟨sync_tasks_eq _ _ _ _, ?_⟩
  rw [sync_users_normal _ _ _ _ h, List.forall₂_map_right_iff, List.forall₂_same]
  intro u hu
  exact ⟨syncUserFun_id _ _ _ _, syncUserFun_name _ _ _ _, syncUserFun_email _ _ _ _,
    syncUserFun_dateCreated _ _ _ _, mem_pend_syncUserFun _ _ _ _,
    fun x hx => mem_pend_syncUserFun_ne _ _ _ _ x hx,
    fun hnd => nodup_pend_syncUserFun _ _ _ _ hnd⟩

theorem claim_C3_witness :
    ((wStore.users.map User.id).Nodup) ∧
    ((syncPendingTasks wTask (some "u1") ["u2"] wStore).tasks = wStore.tasks ∧
     List.Forall₂ (c3Rel wTask (some "u1") ["u2"]) wStore.users
       (syncPendingTasks wTask (some "u1") ["u2"] wStore).users) :=
  ⟨by decide, claim_C3 wTask (some "u1") ["u2"] wStore (by decide)⟩

/-- C9: the pending-list add (`$addToSet`) is idempotent — running the
add-only synchronizer call twice equals running it once, the underlying
`addToSet` is idempotent, and it never introduces a duplicate entry. -/
theorem claim_C9 :
    (∀ (s : Store) (task : Task) (a : String),
      syncPendingTasks task (some a) [] (syncPendingTasks task (some a) [] s) =
        syncPendingTasks task (some a) [] s) ∧
    (∀ (tid : String) (l : List String), addToSet tid (addToSet tid l) = addToSet tid l) ∧
    (∀ (tid : String) (l : List String), l.Nodup → (addToSet tid l).Nodup) := by
  refine ⟨?_, addToSet_idem, nodup_addToSet⟩
  intro s task a
  by_cases hcond : a ≠ "" ∧ task.completed = false
  · have h1 : ∀ (st : Store), syncPendingTasks task (some a) [] st =
        Store.mk st.tasks
          (updateFirst (fun u => decide (u.id = a)) (addPendingFun task.id) st.users) := by
      intro st
      unfold syncPendingTasks
      simp only []
      rw [if_pos hcond, if_pos (show asUniqueIdStrings [] = [] from rfl)]
      rfl
    rw [h1 (syncPendingTasks task (some a) [] s), h1 s]
    congr 1
    exact updateFirst_idem_of _ _ _
      (fun u => by simp [addPendingFun, addToSet_idem]) (fun u => rfl)
  · have h1 : ∀ (st : Store), syncPendingTasks task (some a) [] st = st := by
      intro st
      unfold syncPendingTasks
      simp only []
      rw [if_neg hcond, if_pos (show asUniqueIdStrings [] = [] from rfl)]
    rw [h1 (syncPendingTasks task (some a) [] s), h1 s]

theorem claim_C9_witness :
    (syncPendingTasks wTask (some "u1") [] (syncPendingTasks wTask (some "u1") [] wStore) =
      syncPendingTasks wTask (some "u1") [] wStore) ∧
    (addToSet "t1" (addToSet "t1" ["t2"]) = addToSet "t1" ["t2"]) ∧
    (["t2"].Nodup ∧ (addToSet "t1" ["t2"]).Nodup) :=
  ⟨claim_C9.1 wStore wTask "u1", claim_C9.2.1 "t1" ["t2"],
   by decide, claim_C9.2.2 "t1" ["t2"] (by decide)⟩

/-- C7 fails as stated: a GET /users request whose `where` parameter is
present but malformed JSON is answered 500 (the route's raw `JSON.parse`
throw lands in the generic catch), not 400. -/
theorem claim_C7_counterexample :
    usersGetStatusJs RawParam.invalid RawParam.absent RawParam.absent RawParam.absent = 500 ∧
    usersGetStatusJs RawParam.invalid RawParam.absent RawParam.absent RawParam.absent ≠ 400 := by
  exact ⟨rfl, by decide⟩

/-- C7 amended: malformed filter JSON yields 400 on GET /tasks, but 500 on
GET /users in the direct-parse revision; in the fallback revision it is
silently ignored (200) except for a malformed `count`, which yields 500. -/
theorem claim_C7_amended (w so se c : RawParam) :
    ((w = RawParam.invalid ∨ so = RawParam.invalid ∨ se = RawParam.invalid ∨
        c = RawParam.invalid) → tasksGetStatus w so se c = 400) ∧
    ((w = RawParam.invalid ∨ so = RawParam.invalid ∨ se = RawParam.invalid ∨
        c = RawParam.invalid) → usersGetStatusJs w so se c = 500) ∧
    (c = RawParam.invalid → usersGetStatusRev w so se c = 500) ∧
    (c ≠ RawParam.invalid → usersGetStatusRev w so se c = 200) := by
  refine ⟨fun h => ?_, fun h => ?_, fun h => ?_, fun h => ?_⟩
  · unfold tasksGetStatus
    rw [if_pos h]
  · unfold usersGetStatusJs
    rw [if_pos h]
  · unfold usersGetStatusRev
    rw [if_pos h]
  · unfold usersGetStatusRev
    rw [if_neg h]

theorem claim_C7_amended_witness :
    tasksGetStatus RawParam.invalid RawParam.absent RawParam.absent RawParam.absent = 400 ∧
    usersGetStatusJs RawParam.invalid RawParam.absent RawParam.absent RawParam.absent = 500 ∧
    usersGetStatusRev RawParam.absent RawParam.absent RawParam.absent RawParam.invalid = 500 ∧
    usersGetStatusRev RawParam.invalid RawParam.absent RawParam.absent RawParam.valid = 200 :=
  ⟨(claim_C7_amended _ _ _ _).1 (Or.inl rfl),
   (claim_C7_amended _ _ _ _).2.1 (Or.inl rfl),
   (claim_C7_amended _ _ _ _).2.2.1 rfl,
   (claim_C7_amended _ _ _ _).2.2.2 (by decide)⟩

/-- C8: a successful DELETE /users/:id answers 204 and bulk-resets exactly
the tasks owned by the deleted user to unassigned, leaving all their other
fields (completed in particular) and all other tasks untouched. -/
theorem claim_C8 (s : Store) (id : String) (u : User)
    (hu : s.users.find? (fun x => decide (x.id = id)) = some u) :
    (deleteUser id s).status = 204 ∧
    List.Forall₂ (c8Rel id) s.tasks (deleteUser id s).store.tasks := by
  constructor
  · simp [deleteUser, hu]
  simp only [deleteUser, hu]
  rw [List.forall₂_map_right_iff, List.forall₂_same]
  intro t ht
  unfold c8Rel
  by_cases h : t.assignedUser = id
  · rw [if_pos h]
    exact ⟨fun _ => ⟨rfl, rfl, rfl, rfl, rfl, rfl, rfl, rfl⟩, fun hne => absurd h hne⟩
  · rw [if_neg h]
    exact ⟨fun heq => absurd heq h, fun _ => rfl⟩

theorem claim_C8_witness :
    ((⟨[wTask], [wUserA, wUserB]⟩ : Store).users.find?
        (fun x => decide (x.id = "u1")) = some wUserA) ∧
    ((deleteUser "u1" ⟨[wTask], [wUserA, wUserB]⟩).status = 204 ∧
     List.Forall₂ (c8Rel "u1") [wTask] (deleteUser "u1" ⟨[wTask], [wUserA, wUserB]⟩).store.tasks) :=
  ⟨by decide, claim_C8 ⟨[wTask], [wUserA, wUserB]⟩ "u1" wUserA (by decide)⟩

/-- C1: a transactional POST /users whose (truthy-id) batch contains an
already-completed task id always fails with 400 and leaves the store
exactly as it was: no user created, no task altered. -/
theorem claim_C1 (s : Store) (newId dateNow : String) (b : UserBody) (T : Task) (l : List String)
    (hT : T ∈ s.tasks) (hc : T.completed = true) (hb : b.pendingTasks = some l)
    (hmem : T.id ∈ l) (hne : T.id ≠ "") :
    (createUserTx newId dateNow b s).status = 400 ∧
    (createUserTx newId dateNow b s).store = s := by
  unfold createUserTx
  by_cases h1 : b.name = "" ∨ b.email = ""
  · rw [if_pos h1]
    exact ⟨rfl, rfl⟩
  · rw [if_neg h1]
    by_cases h2 : s.users.any (fun u => decide (u.email = b.email)) = true
    · rw [if_pos h2]
      exact ⟨rfl, rfl⟩
    · rw [if_neg h2]
      rw [hb]
      simp only []
      have hmem2 : T.id ∈ asUniqueIdStrings l :=
        (mem_asUniqueIdStrings l T.id).2 ⟨hmem, hne⟩
      have htne : ¬(asUniqueIdStrings l = []) := by
        intro hnil
        rw [hnil] at hmem2
        exact absurd hmem2 (List.not_mem_nil _)
      rw [if_neg htne]
      by_cases h3 : (s.tasks.filter (fun t => decide (t.id ∈ asUniqueIdStrings l))).length ≠
          (asUniqueIdStrings l).length
      · rw [if_pos h3]
        exact ⟨rfl, rfl⟩
      · rw [if_neg h3]
        have hTfound : T ∈ s.tasks.filter (fun t => decide (t.id ∈ asUniqueIdStrings l)) :=
          List.mem_filter.2 ⟨hT, by simpa using hmem2⟩
        have hany : (s.tasks.filter (fun t => decide (t.id ∈ asUniqueIdStrings l))).any
            (fun t => t.completed) = true :=
          List.any_eq_true.2 ⟨T, hTfound, hc⟩
        rw [if_pos hany]
        exact ⟨rfl, rfl⟩

theorem claim_C1_witness :
    (⟨"t1", "Done task", "", "2031-01-01", true, "", "unassigned", "d0"⟩ : Task) ∈
      (⟨[⟨"t1", "Done task", "", "2031-01-01", true, "", "unassigned", "d0"⟩], []⟩ : Store).tasks ∧
    ((createUserTx "u9" "d1" ⟨"Carol", "carol@x", some ["t1"]⟩
        ⟨[⟨"t1", "Done task", "", "2031-01-01", true, "", "unassigned", "d0"⟩], []⟩).status = 400 ∧
     (createUserTx "u9" "d1" ⟨"Carol", "carol@x", some ["t1"]⟩
        ⟨[⟨"t1", "Done task", "", "2031-01-01", true, "", "unassigned", "d0"⟩], []⟩).store =
       ⟨[⟨"t1", "Done task", "", "2031-01-01", true, "", "unassigned", "d0"⟩], []⟩) :=
  ⟨by decide,
   claim_C1 ⟨[⟨"t1", "Done task", "", "2031-01-01", true, "", "unassigned", "d0"⟩], []⟩
     "u9" "d1" ⟨"Carol", "carol@x", some ["t1"]⟩
     ⟨"t1", "Done task", "", "2031-01-01", true, "", "unassigned", "d0"⟩ ["t1"]
     (by decide) (by decide) rfl (by decide) (by decide)⟩

/-- C10: the non-transactional POST /users with valid name and unique
email answers 201, stores the caller-supplied pendingTasks verbatim (no
dedup, no existence or completed check), and bulk-points the listed tasks
at the new user without touching `completed`, without touching any other
task, and without touching any pre-existing user's pendingTasks. -/
theorem claim_C10 (s : Store) (newId dateNow : String) (b : UserBody) (l : List String)
    (hn : b.name ≠ "") (he : b.email ≠ "") (hdup : ∀ u ∈ s.users, u.email ≠ b.email)
    (hp : b.pendingTasks = some l) :
    (createUserPlain newId dateNow b s).status = 201 ∧
    (createUserPlain newId dateNow b s).store.users =
      s.users ++ [⟨newId, b.name, b.email, l, dateNow⟩] ∧
    (createUserPlain newId dateNow b s).store.tasks =
      s.tasks.map (fun t => if t.id ∈ l then
        { t with assignedUser := newId, assignedUserName := b.name } else t) := by
  have hcond : ¬(b.name = "" ∨ b.email = "") := fun h => h.elim hn he
  have hany : ¬(s.users.any (fun u => decide (u.email = b.email)) = true) := by
    rw [List.any_eq_true]
    rintro ⟨u, hu, hp2⟩
    exact hdup u hu (by simpa using hp2)
  unfold createUserPlain
  rw [if_neg hcond, if_neg hany, hp]
  simp only [Option.getD_some]
  exact ⟨by trivial, by trivial, by trivial⟩

theorem claim_C10_witness :
    ("Carol" : String) ≠ "" ∧ ("carol@x" : String) ≠ "" ∧
    (∀ u ∈ wStore.users, u.email ≠ "carol@x") ∧
    ((createUserPlain "u9" "d1" ⟨"Carol", "carol@x", some ["t1", "t1", "nope"]⟩ wStore).status = 201 ∧
     (createUserPlain "u9" "d1" ⟨"Carol", "carol@x", some ["t1", "t1", "nope"]⟩ wStore).store.users =
       wStore.users ++ [⟨"u9", "Carol", "carol@x", ["t1", "t1", "nope"], "d1"⟩] ∧
     (createUserPlain "u9" "d1" ⟨"Carol", "carol@x", some ["t1", "t1", "nope"]⟩ wStore).store.tasks =
       wStore.tasks.map (fun t => if t.id ∈ ["t1", "t1", "nope"] then
         { t with assignedUser := "u9", assignedUserName := "Carol" } else t)) :=
  ⟨by decide, by decide, by decide,
   claim_C10 wStore "u9" "d1" ⟨"Carol", "carol@x", some ["t1", "t1", "nope"]⟩
     ["t1", "t1", "nope"] (by decide) (by decide) (by decide) rfl⟩

/-- C5 fails as stated for PUT: replacing a nonexistent task with a body
whose `assignedUser` references no existing user answers 404 (not-found
wins), not the claimed 400. -/
theorem claim_C5_counterexample :
    (replaceTask "t1" ⟨"a", "dl", "", false, some "u1", "boss"⟩ ⟨[], []⟩).status = 404 ∧
    (replaceTask "t1" ⟨"a", "dl", "", false, some "u1", "boss"⟩ ⟨[], []⟩).status ≠ 400 := by
  exact ⟨by decide, by decide⟩

/-- C5 amended: provided name and deadline are supplied and (for PUT) the
target task exists, a non-empty `assignedUser` referencing no user yields
400 with the store untouched, and an absent/non-string/empty
`assignedUser` results in the task being written normalized to
`assignedUser = ""`, `assignedUserName = "unassigned"`, regardless of the
caller-supplied name. -/
theorem claim_C5_amended (s : Store) (newId dateNow id : String) (b : TaskBody)
    (hn : b.name ≠ "") (hd : b.deadline ≠ "") :
    (∀ a, b.assignedUser = some a → a ≠ "" → (∀ u ∈ s.users, u.id ≠ a) →
      (createTask newId dateNow b s = ⟨400, s⟩ ∧
       ∀ prev, s.tasks.find? (fun t => decide (t.id = id)) = some prev →
         replaceTask id b s = ⟨400, s⟩)) ∧
    ((b.assignedUser = none ∨ b.assignedUser = some "") →
      ((createTask newId dateNow b s).status = 201 ∧
       (createTask newId dateNow b s).store.tasks =
         s.tasks ++ [⟨newId, b.name, b.description, b.deadline, b.completed, "", "unassigned", dateNow⟩] ∧
       (createTask newId dateNow b s).store.users = s.users ∧
       ∀ prev, s.tasks.find? (fun t => decide (t.id = id)) = some prev →
         ((replaceTask id b s).status = 200 ∧
          (replaceTask id b s).store.tasks =
            updateFirst (fun t => decide (t.id = id))
              (fun _ => mkReplacement prev b "" "unassigned") s.tasks))) := by
  have hcond : ¬(b.name = "" ∨ b.deadline = "") := fun h => h.elim hn hd
  constructor
  · intro a ha hane hnouser
    have hres : resolveAssigned b.assignedUser s = AssignResult.invalid := by
      have hfind : s.users.find? (fun u => decide (u.id = a)) = none :=
        List.find?_eq_none.2 (fun u hu => by simpa using hnouser u hu)
      rw [ha]
      simp [resolveAssigned, hane, hfind]
    constructor
    · simp only [createTask, if_neg hcond, hres]
    · intro prev hprev
      simp only [replaceTask, if_neg hcond, hprev, hres]
  · intro hb2
    have hres : resolveAssigned b.assignedUser s = AssignResult.unassigned := by
      rcases hb2 with h | h <;> rw [h] <;> rfl
    refine ⟨?_, ?_, ?_, ?_⟩
    · simp only [createTask, if_neg hcond, hres]
    · simp only [createTask, if_neg hcond, hres]
    · simp only [createTask, if_neg hcond, hres]
    · intro prev hprev
      constructor
      · simp only [replaceTask, if_neg hcond, hprev, hres, replaceCore]
      · simp only [replaceTask, if_neg hcond, hprev, hres, replaceCore]
        rw [sync_tasks_eq]

theorem claim_C5_amended_witness :
    (("New name" : String) ≠ "" ∧ ("2031-02-02" : String) ≠ "") ∧
    ((∀ a, (some "zz" : Option String) = some a → a ≠ "" → (∀ u ∈ wStore.users, u.id ≠ a) →
      (createTask "t7" "d1" ⟨"New name", "2031-02-02", "", false, some "zz", "boss"⟩ wStore =
        ⟨400, wStore⟩ ∧
       ∀ prev, wStore.tasks.find? (fun t => decide (t.id = "t1")) = some prev →
         replaceTask "t1" ⟨"New name", "2031-02-02", "", false, some "zz", "boss"⟩ wStore =
           ⟨400, wStore⟩)) ∧
     ((some "zz" : Option String) = none ∨ (some "zz" : Option String) = some "" →
      ((createTask "t7" "d1" ⟨"New name", "2031-02-02", "", false, some "zz", "boss"⟩ wStore).status = 201 ∧
       (createTask "t7" "d1" ⟨"New name", "2031-02-02", "", false, some "zz", "boss"⟩ wStore).store.tasks =
         wStore.tasks ++ [⟨"t7", "New name", "", "2031-02-02", false, "", "unassigned", "d1"⟩] ∧
       (createTask "t7" "d1" ⟨"New name", "2031-02-02", "", false, some "zz", "boss"⟩ wStore).store.users =
         wStore.users ∧
       ∀ prev, wStore.tasks.find? (fun t => decide (t.id = "t1")) = some prev →
         ((replaceTask "t1" ⟨"New name", "2031-02-02", "", false, some "zz", "boss"⟩ wStore).status = 200 ∧
          (replaceTask "t1" ⟨"New name", "2031-02-02", "", false, some "zz", "boss"⟩ wStore).store.tasks =
            updateFirst (fun t => decide (t.id = "t1"))
              (fun _ => mkReplacement prev ⟨"New name", "2031-02-02", "", false, some "zz", "boss"⟩
                "" "unassigned") wStore.tasks)))) :=
  ⟨⟨by decide, by decide⟩,
   claim_C5_amended wStore "t7" "d1" "t1"
     ⟨"New name", "2031-02-02", "", false, some "zz", "boss"⟩ (by decide) (by decide)⟩

/-- C2: starting from any well-formed store satisfying the pending-list
invariant, every sequence of task create/replace/delete operations and
transactional batch-assignment user creations (with fresh server ids)
preserves the invariant: a task id is in a user's pendingTasks exactly
when the task is assigned to that user and not completed. -/
theorem claim_C2 (ops : List Op) (s : Store) (hwf : WF s) (hinv : Inv s)
    (hsync : ∀ op ∈ ops, OpIsSync op) (hfresh : SeqHolds OpFresh ops s) :
    Inv (applyOps ops s) := by
  induction ops generalizing s with
  | nil => exact hinv
  | cons op ops ih =>
    rcases hfresh with ⟨hf1, hf2⟩
    rcases good_applyOp_sync op s hwf hinv (hsync op (List.mem_cons_self _ _)) hf1 with ⟨hwf2, hinv2⟩
    exact ih (applyOp op s) hwf2 hinv2 (fun o ho => hsync o (List.mem_cons_of_mem _ ho)) hf2

theorem claim_C2_witness :
    WF (⟨[], []⟩ : Store) ∧ Inv (⟨[], []⟩ : Store) ∧
    (∀ op ∈ c2ops, OpIsSync op) ∧ SeqHolds OpFresh c2ops (⟨[], []⟩ : Store) ∧
    Inv (applyOps c2ops (⟨[], []⟩ : Store)) :=
  ⟨by decide, by decide, by decide, by decide,
   claim_C2 c2ops ⟨[], []⟩ (by decide) (by decide) (by decide) (by decide)⟩

/-- C4: a successful PUT /tasks/:id factors exactly as the primary
replacement write followed by one synchronizer call whose arguments are
the spec's call-site table for Replace — add-target the new assigned user
only if not completed; removal list the previous assigned user (if any)
plus the new assigned user again when completed — and afterwards the
pending lists are correct for the replaced task in all four combinations. -/
theorem claim_C4 (s : Store) (id : String) (b : TaskBody) (prev : Task)
    (hwf : WF s) (hinv : Inv s)
    (hn : b.name ≠ "") (hd : b.deadline ≠ "")
    (hprev : s.tasks.find? (fun t => decide (t.id = id)) = some prev)
    (a nm : String)
    (hres : resolveAssigned b.assignedUser s = AssignResult.assigned a nm ∨
            (resolveAssigned b.assignedUser s = AssignResult.unassigned ∧
             a = "" ∧ nm = "unassigned")) :
    replaceTask id b s =
      ⟨200, syncPendingTasks (mkReplacement prev b a nm)
        (specPutAdd (mkReplacement prev b a nm))
        (specPutRemove prev.assignedUser (mkReplacement prev b a nm))
        (Store.mk
          (updateFirst (fun t => decide (t.id = id)) (fun _ => mkReplacement prev b a nm) s.tasks)
          s.users)⟩ ∧
    ∀ u ∈ (replaceTask id b s).store.users,
      ((mkReplacement prev b a nm).id ∈ u.pendingTasks ↔
        ((mkReplacement prev b a nm).assignedUser = u.id ∧
         (mkReplacement prev b a nm).completed = false)) := by
  have hcond : ¬(b.name = "" ∨ b.deadline = "") := fun h => h.elim hn hd
  have hrc : replaceTask id b s = replaceCore id prev b a nm s := by
    rcases hres with h | ⟨h, ha, hnm⟩
    · simp only [replaceTask, if_neg hcond, hprev, h]
    · subst ha
      subst hnm
      simp only [replaceTask, if_neg hcond, hprev, h]
  constructor
  · rw [hrc, replaceCore_spec]
  · rcases find?_id_some Task.id s.tasks id prev hprev with ⟨hpm, hpi⟩
    have hacase : a = "" ∨ (a ≠ "" ∧ ∃ u0 ∈ s.users, u0.id = a) := by
      rcases hres with h | ⟨h, ha, _⟩
      · rcases resolveAssigned_assigned _ _ _ _ h with ⟨_, hane, u0, hu0, hu0e, _⟩
        exact Or.inr ⟨hane, u0, hu0, hu0e⟩
      · exact Or.inl ha
    rcases good_replaceCore id prev b a nm s hwf hinv hpm hpi hacase with ⟨_, hinv2⟩
    intro u hu
    rw [hrc] at hu
    have hupdmem : mkReplacement prev b a nm ∈ (replaceCore id prev b a nm s).store.tasks := by
      rw [replaceCore_eq]
      show mkReplacement prev b a nm ∈
        (syncPendingTasks (mkReplacement prev b a nm) _ _ _).tasks
      rw [sync_tasks_eq]
      show mkReplacement prev b a nm ∈
        updateFirst (fun t => decide (t.id = id)) (fun _ => mkReplacement prev b a nm) s.tasks
      rw [updateFirst_eq_map Task.id id _ s.tasks hwf.2.1]
      exact List.mem_map.2 ⟨prev, hpm, if_pos hpi⟩
    exact hinv2 u hu (mkReplacement prev b a nm) hupdmem

theorem claim_C4_witness :
    WF wStore2 ∧ Inv wStore2 ∧
    (replaceTask "t1" wB4 wStore2 =
      ⟨200, syncPendingTasks (mkReplacement wTask wB4 "u2" "Bob")
        (specPutAdd (mkReplacement wTask wB4 "u2" "Bob"))
        (specPutRemove wTask.assignedUser (mkReplacement wTask wB4 "u2" "Bob"))
        (Store.mk
          (updateFirst (fun t => decide (t.id = "t1")) (fun _ => mkReplacement wTask wB4 "u2" "Bob")
            wStore2.tasks)
          wStore2.users)⟩ ∧
     ∀ u ∈ (replaceTask "t1" wB4 wStore2).store.users,
       ((mkReplacement wTask wB4 "u2" "Bob").id ∈ u.pendingTasks ↔
         ((mkReplacement wTask wB4 "u2" "Bob").assignedUser = u.id ∧
          (mkReplacement wTask wB4 "u2" "Bob").completed = false))) :=
  ⟨by decide, by decide,
   claim_C4 wStore2 "t1" wB4 wTask (by decide) (by decide) (by decide) (by decide)
     (by decide) "u2" "Bob" (Or.inl (by decide))⟩

/-- C6 fails as stated: with a user literally named `"unassigned"` in the
store, POST /tasks assigned to that user writes a task whose
`assignedUser` is non-empty while `assignedUserName` is `"unassigned"`,
breaking the claimed equivalence. -/
theorem claim_C6_counterexample :
    TaskNameInv (⟨[], [⟨"u1", "unassigned", "e@x", [], "d0"⟩]⟩ : Store) ∧
    ¬ TaskNameInv ((createTask "t1" "d1" ⟨"T", "dl", "", false, some "u1", "boss"⟩
        ⟨[], [⟨"u1", "unassigned", "e@x", [], "d0"⟩]⟩).store) := by
  exact ⟨by decide, by decide⟩

/-- C6 amended: `assignedUser = "" ↔ assignedUserName = "unassigned"` is
preserved by every API operation provided no stored user is named
`"unassigned"`, user ids are non-empty, created users get non-empty ids
and names other than `"unassigned"`, and no user update renames a user to
`"unassigned"`. -/
theorem claim_C6_amended (ops : List Op) (s : Store)
    (h1 : TaskNameInv s) (h2 : UsersNameOk s) (hok : SeqHolds OpNameOk ops s) :
    TaskNameInv (applyOps ops s) := by
  induction ops generalizing s with
  | nil => exact h1
  | cons op ops ih =>
    rcases hok with ⟨ho1, ho2⟩
    rcases nameOk_applyOp op s h1 h2 ho1 with ⟨h1b, h2b⟩
    exact ih (applyOp op s) h1b h2b ho2

theorem claim_C6_amended_witness :
    TaskNameInv wStore2 ∧ UsersNameOk wStore2 ∧ SeqHolds OpNameOk c6ops wStore2 ∧
    TaskNameInv (applyOps c6ops wStore2) :=
  ⟨by decide, by decide, by decide,
   claim_C6_amended c6ops wStore2 (by decide) (by decide) (by decide)⟩

end MP3
